import Mathlib

/-!
Verification of the offline bundler's indexing and asset-resolution core
(`offline_dx_bundler`), shallowly embedded from the Rust sources:

* `src/asset_paths/candidates.rs` — candidate generation for asset references
* `src/asset_paths/bundle.rs`     — canonical bundle paths
* `src/asset_paths/filters.rs`    — external-reference filtering
* `src/manifest/markdown.rs`      — markdown helpers, reference extraction,
                                    reference resolution, front-matter parsing
* `src/manifest/scanning.rs`      — asset map population, identifier sanitising
* `src/manifest/generation.rs`    — recursive catalog builder

Machinery that lives outside the repository (the CommonMark parser
`pulldown-cmark`, the front-matter splitter `gray_matter` + `serde_yaml`,
`serde_json`, and the file system) is represented by explicit parameters or
by small event/tree models, so that every function of the repository itself
is translated directly from its source.

Strings are manipulated through their underlying character lists; all
definitions are executable.
-/

namespace OfflineBundler

/-- `str.trim_matches('/')` from Rust: remove every leading and trailing `'/'`. -/
def trimSlashes (s : String) : String :=
  ⟨((s.data.dropWhile (· = '/')).reverse.dropWhile (· = '/')).reverse⟩

/-- `str.trim_start_matches('/')` from Rust: remove every leading `'/'`. -/
def trimStartSlashes (s : String) : String :=
  ⟨s.data.dropWhile (· = '/')⟩

/-- `str.replace('\\', "/")` from Rust specialised to single characters. -/
def replaceBackslashes (s : String) : String :=
  ⟨s.data.map (fun c => if c = '\\' then '/' else c)⟩

/-- Substring occurrence on character lists (an empty pattern occurs
everywhere, as with Rust's `str::contains`). -/
def listInfix (pat : List Char) : List Char → Bool
  | [] => pat.isPrefixOf []
  | c :: rest => pat.isPrefixOf (c :: rest) || listInfix pat rest

/-- Rust `str::contains(pattern)` for a string pattern: substring test. -/
def containsSubstr (hay pat : String) : Bool :=
  listInfix pat.data hay.data

/-- Rust `str::starts_with(pattern)` for a string pattern. -/
def strStartsWith (s pat : String) : Bool :=
  pat.data.isPrefixOf s.data

/-- Lexicographic comparison of character lists: the `Ord` Rust strings are
sorted by inside `BTreeSet` (UTF-8 byte order equals code-point order). -/
def charListLt : List Char → List Char → Bool
  | _, [] => false
  | [], _ :: _ => true
  | a :: as, b :: bs => if a < b then true else if b < a then false else charListLt as bs

/-- String comparison backing the sorted-set model. -/
def strLt (s t : String) : Bool :=
  charListLt s.data t.data

/--
Modelled from the spec: the layout record of `src/project.rs`, a module that
`lib.rs` declares (`pub mod project;`) but whose file is not part of the
provided sources.  Spec §3 ("Layout/Config: immutable naming convention
bundle") together with the test constructors appearing throughout the
sources (`candidates.rs`, `bundle.rs`, `generation.rs`) fix it as a plain
record of naming strings; `entry_assets_dir()` and the other parenthesised
uses are its field accessors.
-/
structure OfflineProjectLayout where
  entry_assets_dir : String
  entry_markdown_file : String
  collection_metadata_file : String
  excluded_dir_name : String
  excluded_path_fragment : String
  collection_asset_literal_prefix : String
  offline_site_root : String
  collections_dir_name : String
  offline_bundle_root : String
  index_html_file : String
  target_dir : String
  offline_manifest_json : String
deriving Repr, DecidableEq

/-- The layout used by the repository's own tests (`candidates.rs`,
`markdown.rs`, `bundle.rs`, `generation.rs` all construct this same value). -/
def testLayout : OfflineProjectLayout where
  entry_assets_dir := "assets"
  entry_markdown_file := "index.md"
  collection_metadata_file := "collection.json"
  excluded_dir_name := "prod"
  excluded_path_fragment := "/prod/"
  collection_asset_literal_prefix := "/content/programs"
  offline_site_root := "site"
  collections_dir_name := "programs"
  offline_bundle_root := "target/offline-html"
  index_html_file := "index.html"
  target_dir := "target"
  offline_manifest_json := "offline_manifest.json"

/-!  ## `src/asset_paths/candidates.rs` -/

/-- The mutable accumulator of `CandidateBuilder`: the `seen : BTreeSet<String>`
(here a list used only through membership) and the `result : Vec<String>`. -/
structure CandState where
  seen : List String
  result : List String
deriving Repr, DecidableEq

/-- `CandidateBuilder::push`: `seen.insert` reports whether the candidate is
new; only then is it appended to `result`. -/
def pushCand (st : CandState) (candidate : String) : CandState :=
  if candidate ∈ st.seen then st
  else ⟨candidate :: st.seen, st.result ++ [candidate]⟩

/-- Invariant of the candidate builder: the emitted list has no duplicates
and carries exactly the members of the `seen` set. -/
def CandInv (st : CandState) : Prop :=
  st.result.Nodup ∧ ∀ x, x ∈ st.result ↔ x ∈ st.seen

/-- `CandidateBuilder::add_trimmed_candidate`. -/
def addTrimmedCandidate (trimmed : Option String) (st : CandState) : CandState :=
  match trimmed with
  | some path => pushCand st path
  | none => st

/-- `CandidateBuilder::add_slug_candidates`. -/
def addSlugCandidates (trimmed entry slug : Option String)
    (slugWasProvided : Bool) (st : CandState) : CandState :=
  match trimmed with
  | none => st
  | some path =>
    match slug with
    | some slugv =>
      let st := pushCand st (slugv ++ "/" ++ path)
      match entry with
      | some entryv => pushCand st (entryv ++ "/" ++ slugv ++ "/" ++ path)
      | none => st
    | none =>
      if slugWasProvided then
        match entry with
        | some entryv => pushCand st (entryv ++ "/" ++ path)
        | none => st
      else st

/-- `CandidateBuilder::add_entry_scope_candidates`. -/
def addEntryScopeCandidates (layout : OfflineProjectLayout)
    (trimmed entry : Option String) (st : CandState) : CandState :=
  match entry, trimmed with
  | some entryv, some path =>
    let st := pushCand st (entryv ++ "/" ++ layout.entry_assets_dir ++ "/" ++ path)
    pushCand st (entryv ++ "/" ++ path)
  | _, _ => st

/-- `generate_asset_candidates` (candidates.rs lines 10–27), with
`CandidateBuilder::new` inlined as the option-normalising `let`s and
`CandidateBuilder::finish` as the final push of the original path. -/
def generate_asset_candidates (layout : OfflineProjectLayout)
    (entryId : String) (assetSlug : Option String) (path : String) : List String :=
  if path = "" then []
  else
    let trimmedValue := trimSlashes path
    let trimmed := if trimmedValue = "" then none else some trimmedValue
    let entryValue := trimSlashes entryId
    let entry := if entryValue = "" then none else some entryValue
    let slugInfo : Option String × Bool :=
      match assetSlug with
      | some value =>
        let cleaned := trimSlashes value
        (if cleaned = "" then none else some cleaned, true)
      | none => (none, false)
    let st : CandState := ⟨[], []⟩
    let st := addTrimmedCandidate trimmed st
    let st := addSlugCandidates trimmed entry slugInfo.1 slugInfo.2 st
    let st := addEntryScopeCandidates layout trimmed entry st
    (pushCand st path).result

/-- The builder state just before `finish`: the three `add_*` calls of
`generate_asset_candidates` on the normalised inputs (definitionally the
state the function threads; named so lemmas can factor over it). -/
def candPipeline (layout : OfflineProjectLayout)
    (entryId : String) (assetSlug : Option String) (path : String) : CandState :=
  let trimmedValue := trimSlashes path
  let trimmed := if trimmedValue = "" then none else some trimmedValue
  let entryValue := trimSlashes entryId
  let entry := if entryValue = "" then none else some entryValue
  let slugInfo : Option String × Bool :=
    match assetSlug with
    | some value =>
      let cleaned := trimSlashes value
      (if cleaned = "" then none else some cleaned, true)
    | none => (none, false)
  let st : CandState := ⟨[], []⟩
  let st := addTrimmedCandidate trimmed st
  let st := addSlugCandidates trimmed entry slugInfo.1 slugInfo.2 st
  addEntryScopeCandidates layout trimmed entry st

/-!  ## `src/asset_paths/bundle.rs` -/

/-- Representation of a collection asset (`models.rs` `AssetEntry`). -/
structure AssetEntry where
  const_name : String
  literal_path : String
  collection_id : String
  relative_path : String
deriving Repr, DecidableEq

/-- `make_offline_asset_path` (bundle.rs lines 8–18). -/
def make_offline_asset_path (layout : OfflineProjectLayout)
    (collectionId relativePath : String) : String :=
  replaceBackslashes
    (layout.collections_dir_name ++ "/" ++ collectionId ++ "/" ++ relativePath)

/-!  ## `src/asset_paths/filters.rs` -/

/-- Case-insensitive prefix test; the patterns of `asset_reference_ignores`
are lowercase, so `(?i)^pat` is "lowercased input starts with `pat`". -/
def startsWithCI (s pat : String) : Bool :=
  pat.data.isPrefixOf (s.data.map Char.toLower)

/-- `should_ignore_asset_reference` (filters.rs lines 22–26): the three
anchored case-insensitive patterns `^https?://`, `^data:`, `^mailto:`. -/
def should_ignore_asset_reference (value : String) : Bool :=
  startsWithCI value "http://" || startsWithCI value "https://" ||
    startsWithCI value "data:" || startsWithCI value "mailto:"

/-!  ## `src/manifest/markdown.rs` -/

/-- Rust `str::trim`: remove leading and trailing whitespace. -/
def rustTrim (s : String) : String :=
  ⟨((s.data.dropWhile Char.isWhitespace).reverse.dropWhile Char.isWhitespace).reverse⟩

/-- Ordered-set insertion mirroring `BTreeSet<String>`: kept sorted in the
lexicographic `String` order, duplicates dropped. -/
def insertSorted (x : String) : List String → List String
  | [] => [x]
  | y :: rest =>
    if x = y then y :: rest
    else if strLt x y then x :: y :: rest
    else y :: insertSorted x rest

/-- The `pulldown_cmark::Event`s that `collect_markdown_asset_references` and
`extract_first_heading` distinguish.  The CommonMark parser itself is an
external crate; bodies are therefore modelled by their event streams. -/
inductive MdEvent where
  | startImage (destUrl : String)
  | endImage
  | startLink (destUrl : String)
  | endLink
  | startHeading
  | endHeading
  | html (content : String)
  | inlineHtml (content : String)
  | text (content : String)
  | other
deriving Repr, DecidableEq

/-- `add_reference` (markdown.rs lines 149–154). -/
def addReference (references : List String) (value : String) : List String :=
  if should_ignore_asset_reference value then references
  else insertSorted value references

/-- Drop everything up to and including the first occurrence of `pat`
(`fragment[start..].find(&pattern)` followed by skipping the pattern). -/
def dropToAfter (pat : List Char) : List Char → Option (List Char)
  | [] => if pat.isPrefixOf [] then some [] else none
  | c :: rest =>
    if pat.isPrefixOf (c :: rest) then some ((c :: rest).drop pat.length)
    else dropToAfter pat rest

/-- Split at the first occurrence of `q`, dropping it; `none` when absent. -/
def splitAtChar (q : Char) : List Char → Option (List Char × List Char)
  | [] => none
  | c :: rest =>
    if c = q then some ([], rest)
    else (splitAtChar q rest).map (fun vr => (c :: vr.1, vr.2))

/-- One quoted-attribute scanning loop of `extract_attribute_values`:
repeatedly find `pat` (e.g. `src="`), take the value up to the closing
quote, and continue after it.  Each round consumes at least the pattern,
so a fuel of `|fragment| + 1` is never exhausted. -/
def extractQuoted (pat : List Char) (q : Char) : ℕ → List Char → List String
  | 0, _ => []
  | fuel + 1, s =>
    match dropToAfter pat s with
    | none => []
    | some rest =>
      match splitAtChar q rest with
      | none => []
      | some (value, rest2) => (⟨value⟩ : String) :: extractQuoted pat q fuel rest2

/-- `extract_attribute_values` (markdown.rs lines 182–209): the `"`-quoted
loop followed by the `'`-quoted loop, each value passed to `add_reference`. -/
def extractAttributeValues (fragment attr : String)
    (references : List String) : List String :=
  let doubles := extractQuoted (attr ++ "=\"").data '\"'
      (fragment.data.length + 1) fragment.data
  let references := doubles.foldl addReference references
  let singles := extractQuoted (attr ++ "='").data '\''
      (fragment.data.length + 1) fragment.data
  singles.foldl addReference references

/-- The inner search of the image-syntax scanner: after a `![`, look for
`](`, then collect the path up to `)` (or to the end of the fragment). -/
def takeUntilParen : List Char → List Char × List Char
  | [] => ([], [])
  | c :: rest =>
    if c = ')' then ([], rest)
    else
      let pr := takeUntilParen rest
      (c :: pr.1, pr.2)

/-- Search for `](`; returns the collected path and the remaining input. -/
def findImageBody : List Char → Option (List Char × List Char)
  | ']' :: '(' :: rest => some (takeUntilParen rest)
  | _ :: rest => findImageBody rest
  | [] => none

/-- The hand-rolled `![alt](path)` scanner of `extract_inline_asset_values`
(markdown.rs lines 161–179).  Each accepted image consumes at least two
characters, so a fuel of `|fragment| + 1` is never exhausted. -/
def scanImages : ℕ → List Char → List String → List String
  | 0, _, references => references
  | fuel + 1, s, references =>
    match s with
    | '!' :: '[' :: rest =>
      (match findImageBody rest with
       | some (path, rest2) =>
         scanImages fuel rest2 (addReference references (rustTrim ⟨path⟩))
       | none => references)
    | _ :: rest => scanImages fuel rest references
    | [] => references

/-- `extract_inline_asset_values` (markdown.rs lines 156–180). -/
def extractInlineAssetValues (fragment : String)
    (references : List String) : List String :=
  let references := extractAttributeValues fragment "src" references
  let references := extractAttributeValues fragment "href" references
  let references := extractAttributeValues fragment "poster" references
  scanImages (fragment.data.length + 1) fragment.data references

/-- One iteration of the event match inside
`collect_markdown_asset_references` (markdown.rs lines 41–58). -/
def collectRefStep (references : List String) (event : MdEvent) : List String :=
  match event with
  | .startImage _ => references
  | .endImage => references
  | .startLink destUrl => addReference references destUrl
  | .endLink => references
  | .html content => extractInlineAssetValues content references
  | .inlineHtml content => extractInlineAssetValues content references
  | .text content =>
    if strStartsWith content "![" || containsSubstr content "](" then
      extractInlineAssetValues content references
    else references
  | _ => references

/-- `collect_markdown_asset_references` (markdown.rs lines 28–61), as a fold
over the event stream the CommonMark parser produces for the body. -/
def collect_markdown_asset_references (events : List MdEvent) : List String :=
  events.foldl collectRefStep []

/-- `extract_first_heading` (markdown.rs lines 113–147): state machine over
the event stream returning the first heading with non-blank text. -/
def extractFirstHeadingGo (inHeading : Bool) (headingText : String) :
    List MdEvent → Option String
  | [] => none
  | event :: rest =>
    match event with
    | .startHeading => extractFirstHeadingGo true "" rest
    | .endHeading =>
      if inHeading && rustTrim headingText ≠ "" then some (rustTrim headingText)
      else extractFirstHeadingGo false headingText rest
    | .text t =>
      if inHeading then extractFirstHeadingGo inHeading (headingText ++ t) rest
      else extractFirstHeadingGo inHeading headingText rest
    | _ => extractFirstHeadingGo inHeading headingText rest

/-- `extract_first_heading`, entry point. -/
def extract_first_heading (events : List MdEvent) : Option String :=
  extractFirstHeadingGo false "" events

/-- `usize::MAX` on the 64-bit targets the bundler builds for. -/
def USIZE_MAX : ℕ := 2 ^ 64 - 1

/-- Numeric value of a string of ASCII digits. -/
def decimalValue (digits : List Char) : ℕ :=
  digits.foldl (fun acc c => 10 * acc + (c.toNat - 48)) 0

/-- `str::parse::<usize>` on a non-empty all-digit slice: the parse fails
exactly when the denoted number does not fit in the machine word. -/
def rustParseUsize (digits : List Char) : Option ℕ :=
  let v := decimalValue digits
  if v ≤ USIZE_MAX then some v else none

/-- `parse_order_from_id` (markdown.rs lines 17–25).  `split_once('-')`
keeps the part before the first `'-'` (the whole id when there is none),
which is exactly `takeWhile (· ≠ '-')`. -/
def parse_order_from_id (id : String) : Option ℕ :=
  let pre := id.data.takeWhile (· ≠ '-')
  let digits := pre.takeWhile Char.isDigit
  if digits = [] then none else rustParseUsize digits

/-- The order fallback chain of `walk_collection_tree` (generation.rs lines
175–178): front-matter order, then the id prefix, then the `usize::MAX`
sentinel. -/
def entryOrder (frontmatterOrder : Option ℕ) (entryId : String) : ℕ :=
  ((frontmatterOrder).or (parse_order_from_id entryId)).getD USIZE_MAX

/-- The asset map `BTreeMap<(String, String), AssetEntry>`: association list
with unique keys; `lookupA` is `BTreeMap::get`. -/
abbrev AssetMap : Type := List ((String × String) × AssetEntry)

/-- `BTreeMap::get` on the association-list model. -/
def lookupA (m : AssetMap) (k : String × String) : Option AssetEntry :=
  (m.find? (fun p => p.1 = k)).map Prod.snd

/-- The candidate loop of `resolve_markdown_assets` for one reference: the
first candidate present in the map wins and yields its bundle path. -/
def resolveOneRef (layout : OfflineProjectLayout) (assetMap : AssetMap)
    (collectionId entryId : String) (assetSlug : Option String)
    (reference : String) : Option String :=
  (generate_asset_candidates layout entryId assetSlug reference).findSome?
    (fun candidate =>
      (lookupA assetMap (collectionId, candidate)).map
        (fun entry =>
          make_offline_asset_path layout entry.collection_id entry.relative_path))

/-- `resolve_markdown_assets` (markdown.rs lines 64–97).  The reference set
and the resolved set are `BTreeSet`s, modelled as sorted duplicate-free
lists; unresolved references accumulate in iteration order. -/
def resolve_markdown_assets (layout : OfflineProjectLayout)
    (references : List String) (assetMap : AssetMap)
    (collectionId entryId : String) (assetSlug : Option String) :
    List String × List String :=
  let step := fun (acc : List String × List String) (reference : String) =>
    match resolveOneRef layout assetMap collectionId entryId assetSlug reference with
    | some path => (insertSorted path acc.1, acc.2)
    | none => (acc.1, acc.2 ++ [reference])
  references.foldl step ([], [])

/-- Optional front-matter fields (`models.rs` `EntryFrontmatterRecord`). -/
structure EntryFrontmatterRecord where
  title : Option String := none
  -- the source field is `section`, a keyword in Lean
  sectionName : Option String := none
  order : Option ℕ := none
deriving Repr, DecidableEq, Inhabited

/-- The external front-matter machinery used by `parse_entry_markdown`:
`gray_matter`'s `Matter::<YAML>::parse` (which returns `Err` — here `none` —
when it cannot process the document, and otherwise the optional front-matter
value plus the remaining content) and `serde_yaml::from_value` for the final
deserialisation into `EntryFrontmatterRecord`. -/
structure FrontMatterEngine (Y : Type) where
  matterParse : String → Option (Option Y × String)
  yamlDeser : Y → Option EntryFrontmatterRecord

/-- `parse_entry_markdown` (markdown.rs lines 100–111); `fileContent` is the
result of `fs::read_to_string` (`none` when unreadable). -/
def parse_entry_markdown {Y : Type} (engine : FrontMatterEngine Y)
    (fileContent : Option String) : Option (EntryFrontmatterRecord × String) :=
  match fileContent with
  | none => none
  | some content =>
    match engine.matterParse content with
    | none => none
    | some (data, parsedContent) =>
      some ((data.bind engine.yamlDeser).getD default, parsedContent)

/-!  ## `src/manifest/scanning.rs` -/

/-- One round of Rust's `base.replace("__", "_")`: leftmost non-overlapping
replacement of every `__` by `_`. -/
def replaceAllUU : List Char → List Char
  | '_' :: '_' :: rest => '_' :: replaceAllUU rest
  | c :: rest => c :: replaceAllUU rest
  | [] => []

/-- Rust's `base.contains("__")`. -/
def containsUU : List Char → Bool
  | '_' :: '_' :: _ => true
  | _ :: rest => containsUU rest
  | [] => false

/-- The `while base.contains("__") { base = base.replace("__", "_") }` loop
of `sanitize_const_name`.  Every round shortens the string, so a fuel equal
to the length is never exhausted. -/
def collapseLoop : ℕ → List Char → List Char
  | 0, l => l
  | fuel + 1, l => if containsUU l then collapseLoop fuel (replaceAllUU l) else l

/-- Decimal rendering of a counter, as `format!("{counter}")` produces it.
`natDecimalAux` peels decimal digits little-endian; `n` itself bounds the
number of digits, so the fuel is never exhausted. -/
def natDecimalAux : ℕ → ℕ → List Char
  | 0, _ => []
  | fuel + 1, n =>
    if n = 0 then [] else Nat.digitChar (n % 10) :: natDecimalAux fuel (n / 10)

/-- Decimal rendering of `n`. -/
def natDecimal (n : ℕ) : String :=
  if n = 0 then "0" else ⟨(natDecimalAux n n).reverse⟩

/-- `format!("{base}_{counter}")`. -/
def numbered (base : String) (k : ℕ) : String :=
  base ++ "_" ++ natDecimal k

/-- The collision loop of `sanitize_const_name` (scanning.rs lines 115–120),
started at counter `1`.  The candidates `base_1, base_2, …` are pairwise
distinct, so among the first `|used| + 1` of them one is fresh and the fuel
`|used| + 1` is never exhausted (`findFreshAux_spec`). -/
def findFreshAux (used : List String) (base : String) : ℕ → ℕ → String
  | 0, k => numbered base k
  | fuel + 1, k =>
    if numbered base k ∈ used then findFreshAux used base fuel (k + 1)
    else numbered base k

/-- `sanitize_const_name` (scanning.rs lines 96–123).  The Unicode
`to_uppercase` of `String` and `is_alphanumeric` of `char` live outside the
repository and are taken as parameters `up` and `isAlnum`;
`is_ascii_digit` is the ASCII test `Char.isDigit`. -/
def sanitize_const_name (up : String → String) (isAlnum : Char → Bool)
    (programId relativePath : String) (used : List String) : String :=
  let base0 : List Char :=
    (up (programId ++ "_" ++ relativePath)).data.map
      (fun c => if isAlnum c then c else '_')
  let base1 := collapseLoop base0.length base0
  let base : String :=
    match base1 with
    | c :: _ => if c.isDigit then ⟨'_' :: base1⟩ else ⟨base1⟩
    | [] => ⟨base1⟩
  if base ∈ used then findFreshAux used base (used.length + 1) 1 else base

/-- The claim's description of run collapsing: every maximal run of
consecutive `'_'` becomes a single `'_'` (one structural pass). -/
def collapseRuns : List Char → List Char
  | [] => []
  | [c] => [c]
  | c :: d :: rest =>
    if c = '_' ∧ d = '_' then collapseRuns (d :: rest)
    else c :: collapseRuns (d :: rest)

/-- The identifier base exactly as the claim describes it: join scope and
path with `'_'`, uppercase, map non-alphanumeric characters to `'_'`,
collapse `'_'` runs, prefix `'_'` when the first character is a digit. -/
def claimBase (up : String → String) (isAlnum : Char → Bool)
    (programId relativePath : String) : String :=
  let replaced : List Char :=
    (up (programId ++ "_" ++ relativePath)).data.map
      (fun c => if isAlnum c then c else '_')
  let collapsed := collapseRuns replaced
  match collapsed with
  | c :: _ => if c.isDigit then ⟨'_' :: collapsed⟩ else ⟨collapsed⟩
  | [] => ⟨collapsed⟩

/-!  ## `src/manifest/generation.rs` and the file-system model -/

/-- Collection metadata (`models.rs` `CollectionMetaRecord`). -/
structure CollectionMetaRecord where
  title : String
  description : Option String := none
  version : Option String := none
  asset_slug : Option String := none
  hero_image : Option String := none
deriving Repr, DecidableEq

/-- The overrides a collection metadata file may embed, restricted to the
fields `CollectionConfigOverrides::apply_to_layout` (config.rs lines
229–248) actually copies into a layout. -/
structure LayoutOverrides where
  entry_assets_dir : Option String := none
  entry_markdown_file : Option String := none
  collection_metadata_file : Option String := none
  excluded_dir_name : Option String := none
  excluded_path_fragment : Option String := none
  collection_asset_literal_prefix : Option String := none
deriving Repr, DecidableEq

/-- `CollectionConfigOverrides::apply_to_layout` (config.rs lines 229–248). -/
def applyToLayout (ov : LayoutOverrides) (layout : OfflineProjectLayout) :
    OfflineProjectLayout :=
  { layout with
    entry_assets_dir := ov.entry_assets_dir.getD layout.entry_assets_dir
    entry_markdown_file := ov.entry_markdown_file.getD layout.entry_markdown_file
    collection_metadata_file :=
      ov.collection_metadata_file.getD layout.collection_metadata_file
    excluded_dir_name := ov.excluded_dir_name.getD layout.excluded_dir_name
    excluded_path_fragment :=
      ov.excluded_path_fragment.getD layout.excluded_path_fragment
    collection_asset_literal_prefix :=
      ov.collection_asset_literal_prefix.getD layout.collection_asset_literal_prefix }

/-- Catalog entry (`models.rs` `EntryRecord`); `sectionName` stands for the
source field `section`, a keyword in Lean. -/
structure EntryRecord where
  id : String
  title : String
  sectionName : Option String
  sequence : ℕ
  source : String
deriving Repr, DecidableEq

/-- Flattened offline entry (`models.rs` `OfflineEntryRecord`). -/
structure OfflineEntryRecord where
  collection_id : String
  entry_id : String
  body : String
  asset_paths : List String
deriving Repr, DecidableEq

/-- A collection with its entries (`models.rs` `CollectionCatalogRecord`). -/
structure CollectionCatalogRecord where
  id : String
  meta : CollectionMetaRecord
  entries : List EntryRecord
deriving Repr, DecidableEq

/-- Snapshot of a directory tree: the input the walk consumes through
`fs::read_dir` / `fs::read_to_string`.  Directory iteration order is the
list order. -/
inductive FsNode where
  | file (name : String) (content : String)
  | dir (name : String) (children : List FsNode)
deriving Repr

/-- The entry name, as `DirEntry::file_name` yields it. -/
def FsNode.name : FsNode → String
  | .file n _ => n
  | .dir n _ => n

/-- `fs::read_to_string(dir/name)`: content of the file child called `name`. -/
def findFile (children : List FsNode) (name : String) : Option String :=
  children.findSome? fun child =>
    match child with
    | .file n content => if n = name then some content else none
    | .dir _ _ => none

/-- `Path::exists` for `dir/name`: any child (file or directory) so named. -/
def hasEntryNamed (children : List FsNode) (name : String) : Bool :=
  children.any (fun child => child.name = name)

/-- The nested collection id of generation.rs lines 263–267. -/
def nestedId (collectionId childName : String) : String :=
  if collectionId = "" then childName else collectionId ++ "/" ++ childName

/-- `String::to_uppercase` and `char::is_alphanumeric` are Unicode tables of
the Rust standard library, taken as parameters. -/
structure RustStringOps where
  toUppercase : String → String
  isAlphanumeric : Char → Bool

/-- The accumulator threaded through the whole walk: the five mutable
collections of `generate_offline_manifest` (generation.rs lines 28–33).
`heroAssetPaths` is a `BTreeSet`, kept as a sorted duplicate-free list. -/
structure GenState where
  assetMap : AssetMap
  usedNames : List String
  heroMatchArms : List String
  heroAssetPaths : List String
  collectionCatalog : List CollectionCatalogRecord
  offlineEntries : List OfflineEntryRecord
deriving Repr

/-- `BTreeSet::insert` for the used-names set (order is irrelevant, only
membership is consulted). -/
def insertUsed (x : String) (l : List String) : List String :=
  if x ∈ l then l else l ++ [x]

/-- The parameter block of `collect_assets_recursively` (scanning.rs lines
17–22), bound by `walk_collection_tree` to layout fields. -/
structure AssetScanParams where
  prodDirName : String
  moduleAssetsDir : String
  moduleMarkdownFile : String
  prodPathFragment : String
  programAssetLiteralPrefix : String
  programMetadataFile : String
deriving Repr, DecidableEq

/-- The file-collection step of `collect_assets_recursively` (scanning.rs
lines 65–89): excluded-fragment filter, first-write-wins key check,
identifier generation and insertion. -/
def collectFileStep (ops : RustStringOps) (cfg : AssetScanParams)
    (programId relPathStr : String) (st : GenState) : GenState :=
  if containsSubstr relPathStr cfg.prodPathFragment then st
  else if (lookupA st.assetMap (programId, relPathStr)).isSome then st
  else
    let constName := sanitize_const_name ops.toUppercase ops.isAlphanumeric
      programId relPathStr st.usedNames
    let usedNames := insertUsed constName st.usedNames
    let literalPath :=
      cfg.programAssetLiteralPrefix ++ "/" ++ programId ++ "/" ++ relPathStr
    { st with
      assetMap := st.assetMap ++
        [((programId, relPathStr), ⟨constName, literalPath, programId, relPathStr⟩)]
      usedNames := usedNames }

mutual

/-- `collect_assets_recursively` (scanning.rs lines 10–93) over the tree
model; `collectAssetsChildren` is its `for entry in entries` loop.  Joining
with `/` mirrors `next_relative.to_string_lossy`'s forward-slash
normalisation. -/
def collectAssets (ops : RustStringOps) (cfg : AssetScanParams)
    (programId : String) (relativeRoot : String) (inAssetsTree : Bool)
    (st : GenState) : FsNode → GenState
  | .file _ _ => st
  | .dir _ children =>
    collectAssetsChildren ops cfg programId relativeRoot inAssetsTree st children
  termination_by node => (sizeOf node, 0)

/-- The directory-entry loop of `collect_assets_recursively`, one
`collectAssetsChildStep` per entry. -/
def collectAssetsChildren (ops : RustStringOps) (cfg : AssetScanParams)
    (programId : String) (relativeRoot : String) (inAssetsTree : Bool)
    (st : GenState) : List FsNode → GenState
  | [] => st
  | child :: rest =>
    collectAssetsChildren ops cfg programId relativeRoot inAssetsTree
      (collectAssetsChildStep ops cfg programId relativeRoot inAssetsTree st child)
      rest
  termination_by l => (sizeOf l, 2)

/-- The body of `collect_assets_recursively`'s directory-entry loop
(scanning.rs lines 25–90): skip hidden names, extend the relative path,
recurse into directories (skipping the excluded name inside an assets
subtree) and collect eligible files. -/
def collectAssetsChildStep (ops : RustStringOps) (cfg : AssetScanParams)
    (programId : String) (relativeRoot : String) (inAssetsTree : Bool)
    (st : GenState) (child : FsNode) : GenState :=
  if strStartsWith child.name "." then st
  else
    let nextRelative :=
      if relativeRoot = "" then child.name else relativeRoot ++ "/" ++ child.name
    match child with
    | .dir dn dc =>
      if inAssetsTree ∧ child.name = cfg.prodDirName then st
      else
        collectAssets ops cfg programId nextRelative
          (inAssetsTree || child.name = cfg.moduleAssetsDir) st (.dir dn dc)
    | .file _ _ =>
      if inAssetsTree || child.name = cfg.moduleMarkdownFile ||
          child.name = cfg.programMetadataFile then
        collectFileStep ops cfg programId nextRelative st
      else st
  termination_by (sizeOf child, 1)

end

/-- The external collaborators of the walk: the Rust string tables, the
front-matter machinery of `parse_entry_markdown`, the CommonMark parser
producing event streams from bodies, the JSON reading of `load_document`
plus `serde_json::from_value` for metadata payloads, and
`serde_json::to_string` for quoting collection ids into match arms. -/
structure Externals (Y : Type) where
  ops : RustStringOps
  engine : FrontMatterEngine Y
  mdEvents : String → List MdEvent
  parseMetaDoc : String → Option (Option CollectionMetaRecord × LayoutOverrides)
  jsonQuote : String → String

/-- The hero-image registration of `walk_collection_tree` (generation.rs
lines 110–145): normalise the reference, `entry(..).or_insert_with(..)`
into the asset map, then record the match arm and the bundle path. -/
def registerHero {Y : Type} (ext : Externals Y) (layout : OfflineProjectLayout)
    (collectionId : String) (heroImage : Option String) (st : GenState) : GenState :=
  match heroImage with
  | none => st
  | some hero =>
    let heroRel := replaceBackslashes (trimStartSlashes hero)
    if heroRel = "" then st
    else
      let st :=
        if (lookupA st.assetMap (collectionId, heroRel)).isSome then st
        else
          let constName := sanitize_const_name ext.ops.toUppercase
            ext.ops.isAlphanumeric collectionId heroRel st.usedNames
          let usedNames := insertUsed constName st.usedNames
          let assetPath := layout.collection_asset_literal_prefix ++ "/" ++
            collectionId ++ "/" ++ heroRel
          { st with
            assetMap := st.assetMap ++
              [((collectionId, heroRel), ⟨constName, assetPath, collectionId, heroRel⟩)]
            usedNames := usedNames }
      match lookupA st.assetMap (collectionId, heroRel) with
      | some entry =>
        { st with
          heroMatchArms := st.heroMatchArms ++
            ["        " ++ ext.jsonQuote collectionId ++ " => Some(&" ++
              entry.const_name ++ "),"]
          heroAssetPaths := insertSorted
            (make_offline_asset_path layout entry.collection_id entry.relative_path)
            st.heroAssetPaths }
      | none => st

/-- The per-entry body of the scan over immediate child directories
(generation.rs lines 149–219): title and order derivation, reference
extraction, resolution, and accumulation of the offline record and the
`(order, EntryRecord)` pair. -/
def processEntry {Y : Type} (ext : Externals Y)
    (collectionLayout : OfflineProjectLayout) (meta : CollectionMetaRecord)
    (collectionId entryId : String) (entryChildren : List FsNode)
    (acc : GenState × List (ℕ × EntryRecord)) : GenState × List (ℕ × EntryRecord) :=
  match parse_entry_markdown ext.engine
      (findFile entryChildren collectionLayout.entry_markdown_file) with
  | none => acc
  | some (frontmatter, body) =>
    let st := acc.1
    let entryTitle :=
      ((frontmatter.title).or (extract_first_heading (ext.mdEvents body))).getD entryId
    let order := entryOrder frontmatter.order entryId
    let assetSlug := meta.asset_slug
    let references := collect_markdown_asset_references (ext.mdEvents body)
    let resolvedUnresolved := resolve_markdown_assets collectionLayout references
      st.assetMap collectionId entryId assetSlug
    let st := { st with
      offlineEntries := st.offlineEntries ++
        [⟨collectionId, entryId, body, resolvedUnresolved.1⟩] }
    (st, acc.2 ++ [(order,
      ⟨entryId, entryTitle, frontmatter.sectionName, order,
        collectionId ++ "/" ++ entryId ++ "/" ++ collectionLayout.entry_markdown_file⟩)])

/-- The stable `(order, id)` comparison of generation.rs lines 222–226, as
the `le` of a stable merge sort. -/
def entryRecordLE (a b : ℕ × EntryRecord) : Bool :=
  a.1 < b.1 || (a.1 = b.1 && a.2.id ≤ b.2.id)

/-- The included-collection branch of `walk_collection_tree` (generation.rs
lines 92–242): collect assets, register the hero image, process entries,
sort and re-sequence them, and append the catalog record. -/
def processCollection {Y : Type} (ext : Externals Y)
    (collectionLayout : OfflineProjectLayout) (node : FsNode)
    (children : List FsNode) (collectionId : String)
    (meta : CollectionMetaRecord) (st : GenState) : GenState :=
  let scanParams : AssetScanParams :=
    ⟨collectionLayout.excluded_dir_name, collectionLayout.entry_assets_dir,
      collectionLayout.entry_markdown_file, collectionLayout.excluded_path_fragment,
      collectionLayout.collection_asset_literal_prefix,
      collectionLayout.collection_metadata_file⟩
  let st := collectAssets ext.ops scanParams collectionId "" false st node
  let st := registerHero ext collectionLayout collectionId meta.hero_image st
  let stRecords :=
    children.foldl
      (fun acc child =>
        match child with
        | .file _ _ => acc
        | .dir entryId entryChildren =>
          if strStartsWith entryId "." || entryId = collectionLayout.entry_assets_dir then acc
          else if ¬ hasEntryNamed entryChildren collectionLayout.entry_markdown_file then acc
          else processEntry ext collectionLayout meta collectionId entryId
            entryChildren acc)
      (st, [])
  let st := stRecords.1
  let sorted := stRecords.2.mergeSort entryRecordLE
  let entries : List EntryRecord :=
    sorted.enum.map (fun ie => { ie.2.2 with sequence := ie.1 + 1 })
  { st with collectionCatalog := st.collectionCatalog ++
      [⟨collectionId, meta, entries⟩] }

mutual

/-- `walk_collection_tree` (generation.rs lines 71–283): load the metadata
document and scope its overrides, run the included-collection branch when
the metadata parsed and the selection admits the id, then recurse into
every non-hidden child directory that contains a metadata file. -/
def walk_collection_tree {Y : Type} (ext : Externals Y)
    (parentLayout : OfflineProjectLayout) (node : FsNode) (collectionId : String)
    (sel : String → Bool) (st : GenState) : GenState :=
  match node with
  | .file _ _ => st
  | .dir nodeName children =>
    let loaded := (findFile children parentLayout.collection_metadata_file).bind
      ext.parseMetaDoc
    let collectionLayout :=
      match loaded with
      | some (_, ov) => applyToLayout ov parentLayout
      | none => parentLayout
    let meta : Option CollectionMetaRecord :=
      match loaded with
      | some (m, _) => m
      | none => none
    let st :=
      match meta with
      | some meta =>
        if sel collectionId then
          processCollection ext collectionLayout (.dir nodeName children) children
            collectionId meta st
        else st
      | none => st
    walkChildren ext collectionLayout collectionId sel st children
  termination_by (sizeOf node, 0)

/-- The child-recursion loop of `walk_collection_tree` (generation.rs lines
244–282), one `walkChildStep` per directory entry. -/
def walkChildren {Y : Type} (ext : Externals Y)
    (collectionLayout : OfflineProjectLayout) (collectionId : String)
    (sel : String → Bool) (st : GenState) : List FsNode → GenState
  | [] => st
  | child :: rest =>
    walkChildren ext collectionLayout collectionId sel
      (walkChildStep ext collectionLayout collectionId sel st child) rest
  termination_by l => (sizeOf l, 1)

/-- The body of the child-recursion loop of `walk_collection_tree`: skip
files, hidden names and children without a metadata file, and recurse with
the nested id and the (possibly overridden) layout. -/
def walkChildStep {Y : Type} (ext : Externals Y)
    (collectionLayout : OfflineProjectLayout) (collectionId : String)
    (sel : String → Bool) (st : GenState) (child : FsNode) : GenState :=
  match child with
  | .file _ _ => st
  | .dir childName childChildren =>
    if strStartsWith childName "." then st
    else if ¬ hasEntryNamed childChildren
        collectionLayout.collection_metadata_file then st
    else
      walk_collection_tree ext collectionLayout (.dir childName childChildren)
        (nestedId collectionId childName) sel st
  termination_by (sizeOf child, 2)

end

/-!  ## Candidate-builder lemmas -/

theorem pushCand_of_mem {st : CandState} {c : String} (h : c ∈ st.seen) :
    pushCand st c = st := by
  simp [pushCand, h]

theorem pushCand_of_not_mem {st : CandState} {c : String} (h : c ∉ st.seen) :
    pushCand st c = ⟨c :: st.seen, st.result ++ [c]⟩ := by
  simp [pushCand, h]

theorem candInv_pushCand {st : CandState} (h : CandInv st) (c : String) :
    CandInv (pushCand st c) := by
  by_cases hc : c ∈ st.seen
  · rw [pushCand_of_mem hc]; exact h
  · rw [pushCand_of_not_mem hc]
    obtain ⟨hnd, hiff⟩ := h
    refine ⟨?_, ?_⟩
    · simp only [List.nodup_append, hnd, List.nodup_cons, true_and]
      refine ⟨⟨by simp, by simp⟩, ?_⟩
      intro x hx hx1
      simp only [List.mem_singleton] at hx1
      subst hx1
      exact hc ((hiff x).1 hx)
    · intro x
      constructor
      · intro hx
        rcases List.mem_append.1 hx with hx | hx
        · exact List.mem_cons_of_mem _ ((hiff x).1 hx)
        · simp only [List.mem_singleton] at hx
          exact hx ▸ List.mem_cons_self _ _
      · intro hx
        rcases List.mem_cons.1 hx with hx | hx
        · subst hx; simp
        · exact List.mem_append.2 (Or.inl ((hiff x).2 hx))

theorem candInv_addTrimmed {st : CandState} (h : CandInv st) (trimmed : Option String) :
    CandInv (addTrimmedCandidate trimmed st) := by
  cases trimmed with
  | some p => exact candInv_pushCand h p
  | none => exact h

theorem candInv_addSlug {st : CandState} (h : CandInv st)
    (trimmed entry slug : Option String) (provided : Bool) :
    CandInv (addSlugCandidates trimmed entry slug provided st) := by
  cases trimmed with
  | none => exact h
  | some p =>
    cases slug with
    | some sv =>
      cases entry with
      | some ev => exact candInv_pushCand (candInv_pushCand h _) _
      | none => exact candInv_pushCand h _
    | none =>
      cases provided with
      | true =>
        cases entry with
        | some ev => exact candInv_pushCand h _
        | none => exact h
      | false => exact h

theorem candInv_addEntryScope {st : CandState} (h : CandInv st)
    (layout : OfflineProjectLayout) (trimmed entry : Option String) :
    CandInv (addEntryScopeCandidates layout trimmed entry st) := by
  cases entry with
  | none => cases trimmed <;> exact h
  | some ev =>
    cases trimmed with
    | some p => exact candInv_pushCand (candInv_pushCand h _) _
    | none => exact h

theorem mem_pushCand_self {st : CandState} (h : CandInv st) (c : String) :
    c ∈ (pushCand st c).result := by
  by_cases hc : c ∈ st.seen
  · rw [pushCand_of_mem hc]; exact (h.2 c).2 hc
  · rw [pushCand_of_not_mem hc]; simp

theorem pushCand_result_extend (st : CandState) (c : String) :
    ∃ l, (pushCand st c).result = st.result ++ l := by
  by_cases hc : c ∈ st.seen
  · exact ⟨[], by rw [pushCand_of_mem hc]; simp⟩
  · exact ⟨[c], by rw [pushCand_of_not_mem hc]⟩

theorem addSlug_result_extend (st : CandState)
    (trimmed entry slug : Option String) (provided : Bool) :
    ∃ l, (addSlugCandidates trimmed entry slug provided st).result = st.result ++ l := by
  cases trimmed with
  | none => exact ⟨[], by simp [addSlugCandidates]⟩
  | some p =>
    cases slug with
    | some sv =>
      cases entry with
      | some ev =>
        obtain ⟨l1, h1⟩ := pushCand_result_extend st (sv ++ "/" ++ p)
        obtain ⟨l2, h2⟩ := pushCand_result_extend (pushCand st (sv ++ "/" ++ p))
          (ev ++ "/" ++ sv ++ "/" ++ p)
        exact ⟨l1 ++ l2, by simp [addSlugCandidates, h2, h1]⟩
      | none =>
        obtain ⟨l1, h1⟩ := pushCand_result_extend st (sv ++ "/" ++ p)
        exact ⟨l1, by simpa [addSlugCandidates] using h1⟩
    | none =>
      cases provided with
      | true =>
        cases entry with
        | some ev =>
          obtain ⟨l1, h1⟩ := pushCand_result_extend st (ev ++ "/" ++ p)
          exact ⟨l1, by simpa [addSlugCandidates] using h1⟩
        | none => exact ⟨[], by simp [addSlugCandidates]⟩
      | false => exact ⟨[], by simp [addSlugCandidates]⟩

theorem addEntryScope_result_extend (st : CandState)
    (layout : OfflineProjectLayout) (trimmed entry : Option String) :
    ∃ l, (addEntryScopeCandidates layout trimmed entry st).result = st.result ++ l := by
  cases entry with
  | none => exact ⟨[], by cases trimmed <;> simp [addEntryScopeCandidates]⟩
  | some ev =>
    cases trimmed with
    | none => exact ⟨[], by simp [addEntryScopeCandidates]⟩
    | some p =>
      obtain ⟨l1, h1⟩ := pushCand_result_extend st
        (ev ++ "/" ++ layout.entry_assets_dir ++ "/" ++ p)
      obtain ⟨l2, h2⟩ := pushCand_result_extend
        (pushCand st (ev ++ "/" ++ layout.entry_assets_dir ++ "/" ++ p)) (ev ++ "/" ++ p)
      exact ⟨l1 ++ l2, by simp [addEntryScopeCandidates, h2, h1]⟩

theorem generate_eq_pipeline (layout : OfflineProjectLayout) (entryId : String)
    (assetSlug : Option String) (path : String) (h : path ≠ "") :
    generate_asset_candidates layout entryId assetSlug path =
      (pushCand (candPipeline layout entryId assetSlug path) path).result := by
  simp only [generate_asset_candidates, candPipeline, if_neg h]

theorem candInv_empty : CandInv ⟨[], []⟩ :=
  ⟨List.nodup_nil, by simp⟩

theorem candInv_pipeline (layout : OfflineProjectLayout) (entryId : String)
    (assetSlug : Option String) (path : String) :
    CandInv (candPipeline layout entryId assetSlug path) := by
  exact candInv_addEntryScope
    (candInv_addSlug (candInv_addTrimmed candInv_empty _) _ _ _ _) _ _ _

/-- C3 (amended): for every layout, entry scope, optional slug and raw
reference, `generate_asset_candidates` returns a duplicate-free list, and
for a non-empty raw reference the original untrimmed string occurs in the
list (the final push makes it the last element only when no earlier
candidate already equals it). -/
theorem c3_theorem (layout : OfflineProjectLayout) (entryId : String)
    (assetSlug : Option String) (path : String) :
    (generate_asset_candidates layout entryId assetSlug path).Nodup ∧
      (path ≠ "" → path ∈ generate_asset_candidates layout entryId assetSlug path) := by
  by_cases h : path = ""
  · subst h
    simp [generate_asset_candidates]
  · rw [generate_eq_pipeline layout entryId assetSlug path h]
    have hinv := candInv_pipeline layout entryId assetSlug path
    exact ⟨(candInv_pushCand hinv path).1, fun _ => mem_pushCand_self hinv path⟩

/-- C3 witness: the amended statement instantiated on the candidate test of
the repository (`generates_candidates_for_entry_and_slug_scopes`). -/
theorem c3_witness :
    ("images/photo.png" : String) ≠ "" ∧
      (generate_asset_candidates testLayout "safety" (some "week-1")
        "images/photo.png").Nodup ∧
      "images/photo.png" ∈ generate_asset_candidates testLayout "safety"
        (some "week-1") "images/photo.png" :=
  ⟨by decide,
    (c3_theorem testLayout "safety" (some "week-1") "images/photo.png").1,
    (c3_theorem testLayout "safety" (some "week-1") "images/photo.png").2 (by decide)⟩

/-- C3 counterexample: on the repository's own test input the last candidate
is `safety/images/photo.png`, not the original reference, so the claimed
conjunction fails. -/
theorem c3_counterexample :
    ¬ ((generate_asset_candidates testLayout "safety" (some "week-1")
          "images/photo.png").Nodup ∧
        (generate_asset_candidates testLayout "safety" (some "week-1")
          "images/photo.png").getLast? = some "images/photo.png") := by
  decide

/-- C4 (amended): whenever the raw reference still has characters after
trimming the surrounding `/`, the first candidate is that trimmed
reference. -/
theorem c4_theorem (layout : OfflineProjectLayout) (entryId : String)
    (assetSlug : Option String) (path : String) (h : trimSlashes path ≠ "") :
    (generate_asset_candidates layout entryId assetSlug path).head? =
      some (trimSlashes path) := by
  have hp : path ≠ "" := by
    intro he
    exact h (by rw [he]; rfl)
  rw [generate_eq_pipeline layout entryId assetSlug path hp]
  have h1 : addTrimmedCandidate
      (if trimSlashes path = "" then none else some (trimSlashes path)) ⟨[], []⟩ =
      ⟨[trimSlashes path], [trimSlashes path]⟩ := by
    rw [if_neg h]
    simp [addTrimmedCandidate, pushCand]
  obtain ⟨l2, h2⟩ := addSlug_result_extend ⟨[trimSlashes path], [trimSlashes path]⟩
    (if trimSlashes path = "" then none else some (trimSlashes path))
    (if trimSlashes entryId = "" then none else some (trimSlashes entryId))
    (match assetSlug with
      | some value => (if trimSlashes value = "" then none else some (trimSlashes value), true)
      | none => ((none : Option String), false)).1
    (match assetSlug with
      | some value => (if trimSlashes value = "" then none else some (trimSlashes value), true)
      | none => ((none : Option String), false)).2
  obtain ⟨l3, h3⟩ := addEntryScope_result_extend _ layout
    (if trimSlashes path = "" then none else some (trimSlashes path))
    (if trimSlashes entryId = "" then none else some (trimSlashes entryId))
  obtain ⟨l4, h4⟩ := pushCand_result_extend _ path
  show (pushCand (addEntryScopeCandidates layout _ _ (addSlugCandidates _ _ _ _
    (addTrimmedCandidate _ ⟨[], []⟩))) path).result.head? = some (trimSlashes path)
  rw [h1] at *
  rw [h4, h3, h2]
  simp

/-- C4 witness: the amended statement on the repository's test input. -/
theorem c4_witness :
    trimSlashes "images/photo.png" ≠ "" ∧
      (generate_asset_candidates testLayout "safety" (some "week-1")
        "images/photo.png").head? = some (trimSlashes "images/photo.png") :=
  ⟨by decide,
    c4_theorem testLayout "safety" (some "week-1") "images/photo.png" (by decide)⟩

/-- C4 counterexample: the non-empty reference consisting only of slashes.
Its trim is empty, and the repository's own test
`keeps_original_path_when_no_normalisation_possible` pins the candidate list
to the untrimmed original. -/
theorem c4_counterexample :
    ("/" : String) ≠ "" ∧
      (generate_asset_candidates testLayout "entry" none "/").head? ≠
        some (trimSlashes "/") := by
  decide

theorem string_ne_of_length_ne {s t : String} (h : s.length ≠ t.length) : s ≠ t :=
  fun he => h (congrArg String.length he)

theorem builder_scope_candidate_length (d : String) :
    ("safety" ++ "/" ++ d ++ "/" ++ "images/photo.png").length = 24 + d.length := by
  have a1 : ("safety" : String).length = 6 := by decide
  have a2 : ("/" : String).length = 1 := by decide
  have a3 : ("images/photo.png" : String).length = 16 := by decide
  simp only [String.length_append, a1, a2, a3]
  omega

theorem builder_scope_candidate_glue (d : String) :
    "safety/" ++ d ++ "/images/photo.png" =
      "safety" ++ "/" ++ d ++ "/" ++ "images/photo.png" := by
  have e1 : ("safety/" : String) = "safety" ++ "/" := by decide
  have e2 : ("/images/photo.png" : String) = "/" ++ "images/photo.png" := by decide
  rw [e1, e2]
  simp [String.append_assoc]

theorem builder_scope_candidate_ne_mid {d : String} (h : d ≠ "week-1") :
    "safety" ++ "/" ++ d ++ "/" ++ "images/photo.png" ≠
      "safety/week-1/images/photo.png" := by
  intro he
  apply h
  have hdata := congrArg String.data he
  have hrhs : ("safety/week-1/images/photo.png" : String).data =
      "safety".data ++ "/".data ++ "week-1".data ++ "/".data ++
        ("images/photo.png" : String).data := by decide
  rw [hrhs] at hdata
  simp only [String.data_append] at hdata
  have h1 := List.append_cancel_right hdata
  have h2 := List.append_cancel_right h1
  have h3 := List.append_cancel_left h2
  exact String.ext h3

/-- C1 (amended): for every layout whose entry-assets directory name is not
itself `week-1`, the inputs of the spec's example produce exactly the
claimed five candidates in order; when the assets directory is `week-1` the
fourth candidate collides with the third and is deduplicated away
(`c1_counterexample`). -/
theorem c1_theorem (layout : OfflineProjectLayout)
    (h : layout.entry_assets_dir ≠ "week-1") :
    generate_asset_candidates layout "safety" (some "week-1") "images/photo.png" =
      ["images/photo.png", "week-1/images/photo.png",
        "safety/week-1/images/photo.png",
        "safety/" ++ layout.entry_assets_dir ++ "/images/photo.png",
        "safety/images/photo.png"] := by
  have hstep : generate_asset_candidates layout "safety" (some "week-1")
      "images/photo.png" =
      (pushCand (addEntryScopeCandidates layout (some "images/photo.png")
        (some "safety")
        ⟨["safety/week-1/images/photo.png", "week-1/images/photo.png",
            "images/photo.png"],
          ["images/photo.png", "week-1/images/photo.png",
            "safety/week-1/images/photo.png"]⟩) "images/photo.png").result := rfl
  rw [hstep]
  simp only [addEntryScopeCandidates]
  have hlen := builder_scope_candidate_length layout.entry_assets_dir
  have hne3 := builder_scope_candidate_ne_mid h
  have hne2 : "safety" ++ "/" ++ layout.entry_assets_dir ++ "/" ++
      "images/photo.png" ≠ "week-1/images/photo.png" := by
    apply string_ne_of_length_ne
    rw [hlen]
    have : ("week-1/images/photo.png" : String).length = 23 := by decide
    omega
  have hne1 : "safety" ++ "/" ++ layout.entry_assets_dir ++ "/" ++
      "images/photo.png" ≠ "images/photo.png" := by
    apply string_ne_of_length_ne
    rw [hlen]
    have : ("images/photo.png" : String).length = 16 := by decide
    omega
  have hpush1 : pushCand
      ⟨["safety/week-1/images/photo.png", "week-1/images/photo.png",
          "images/photo.png"],
        ["images/photo.png", "week-1/images/photo.png",
          "safety/week-1/images/photo.png"]⟩
      ("safety" ++ "/" ++ layout.entry_assets_dir ++ "/" ++ "images/photo.png") =
      ⟨["safety" ++ "/" ++ layout.entry_assets_dir ++ "/" ++ "images/photo.png",
          "safety/week-1/images/photo.png", "week-1/images/photo.png",
          "images/photo.png"],
        ["images/photo.png", "week-1/images/photo.png",
          "safety/week-1/images/photo.png",
          "safety" ++ "/" ++ layout.entry_assets_dir ++ "/" ++
            "images/photo.png"]⟩ := by
    apply pushCand_of_not_mem
    simp only [List.mem_cons, List.not_mem_nil, or_false]
    push_neg
    exact ⟨hne3, hne2, hne1⟩
  rw [hpush1]
  have hs5 : ("safety" ++ "/" ++ "images/photo.png" : String) =
      "safety/images/photo.png" := by decide
  have hne45 : ("safety/images/photo.png" : String) ≠
      "safety" ++ "/" ++ layout.entry_assets_dir ++ "/" ++ "images/photo.png" := by
    apply string_ne_of_length_ne
    rw [hlen]
    have : ("safety/images/photo.png" : String).length = 23 := by decide
    omega
  have hpush2 : pushCand
      ⟨["safety" ++ "/" ++ layout.entry_assets_dir ++ "/" ++ "images/photo.png",
          "safety/week-1/images/photo.png", "week-1/images/photo.png",
          "images/photo.png"],
        ["images/photo.png", "week-1/images/photo.png",
          "safety/week-1/images/photo.png",
          "safety" ++ "/" ++ layout.entry_assets_dir ++ "/" ++
            "images/photo.png"]⟩
      ("safety" ++ "/" ++ "images/photo.png") =
      ⟨["safety/images/photo.png",
          "safety" ++ "/" ++ layout.entry_assets_dir ++ "/" ++ "images/photo.png",
          "safety/week-1/images/photo.png", "week-1/images/photo.png",
          "images/photo.png"],
        ["images/photo.png", "week-1/images/photo.png",
          "safety/week-1/images/photo.png",
          "safety" ++ "/" ++ layout.entry_assets_dir ++ "/" ++ "images/photo.png",
          "safety/images/photo.png"]⟩ := by
    rw [hs5]
    apply pushCand_of_not_mem
    simp only [List.mem_cons, List.not_mem_nil, or_false]
    push_neg
    refine ⟨hne45, by decide, by decide, by decide⟩
  rw [hpush2]
  have hpush3 : pushCand
      ⟨["safety/images/photo.png",
          "safety" ++ "/" ++ layout.entry_assets_dir ++ "/" ++ "images/photo.png",
          "safety/week-1/images/photo.png", "week-1/images/photo.png",
          "images/photo.png"],
        ["images/photo.png", "week-1/images/photo.png",
          "safety/week-1/images/photo.png",
          "safety" ++ "/" ++ layout.entry_assets_dir ++ "/" ++ "images/photo.png",
          "safety/images/photo.png"]⟩ "images/photo.png" =
      ⟨["safety/images/photo.png",
          "safety" ++ "/" ++ layout.entry_assets_dir ++ "/" ++ "images/photo.png",
          "safety/week-1/images/photo.png", "week-1/images/photo.png",
          "images/photo.png"],
        ["images/photo.png", "week-1/images/photo.png",
          "safety/week-1/images/photo.png",
          "safety" ++ "/" ++ layout.entry_assets_dir ++ "/" ++ "images/photo.png",
          "safety/images/photo.png"]⟩ := by
    apply pushCand_of_mem
    simp
  rw [hpush3]
  rw [builder_scope_candidate_glue layout.entry_assets_dir]

/-- C1 witness: the amended statement instantiated with the repository's
test layout, whose assets directory `assets` differs from `week-1`. -/
theorem c1_witness :
    testLayout.entry_assets_dir ≠ "week-1" ∧
      generate_asset_candidates testLayout "safety" (some "week-1")
          "images/photo.png" =
        ["images/photo.png", "week-1/images/photo.png",
          "safety/week-1/images/photo.png",
          "safety/" ++ testLayout.entry_assets_dir ++ "/images/photo.png",
          "safety/images/photo.png"] :=
  ⟨by decide, c1_theorem testLayout (by decide)⟩

/-- C1 counterexample: with a layout whose entry-assets directory is
`week-1`, the fourth claimed candidate duplicates the third, the builder
deduplicates it, and the result has four elements instead of the claimed
five. -/
theorem c1_counterexample :
    generate_asset_candidates { testLayout with entry_assets_dir := "week-1" }
        "safety" (some "week-1") "images/photo.png" ≠
      ["images/photo.png", "week-1/images/photo.png",
        "safety/week-1/images/photo.png",
        "safety/" ++ ({ testLayout with entry_assets_dir := "week-1" } :
          OfflineProjectLayout).entry_assets_dir ++ "/images/photo.png",
        "safety/images/photo.png"] := by
  decide

/-- C10: when the entry id has a leading digit string (before the first
`-`) whose value exceeds the machine-word maximum, the overflow error of
`parse::<usize>` is swallowed into `None`, and the order fallback chain of
the walk silently lands on the `usize::MAX` sentinel instead of the huge
numeric prefix. -/
theorem c10_theorem (id : String)
    (h1 : (id.data.takeWhile (· ≠ '-')).takeWhile Char.isDigit ≠ [])
    (h2 : USIZE_MAX <
      decimalValue ((id.data.takeWhile (· ≠ '-')).takeWhile Char.isDigit)) :
    parse_order_from_id id = none ∧ entryOrder none id = USIZE_MAX := by
  have hp : parse_order_from_id id = none := by
    simp only [parse_order_from_id, rustParseUsize]
    rw [if_neg h1, if_neg (by omega)]
  refine ⟨hp, ?_⟩
  simp only [entryOrder, Option.or, hp]
  rfl

/-- C10 witness: the prefix of `18446744073709551616-intro` denotes
`2 ^ 64`, one past `usize::MAX`. -/
theorem c10_witness :
    ((("18446744073709551616-intro" : String).data.takeWhile
        (· ≠ '-')).takeWhile Char.isDigit ≠ []) ∧
      (USIZE_MAX < decimalValue ((("18446744073709551616-intro" : String).data.takeWhile
        (· ≠ '-')).takeWhile Char.isDigit)) ∧
      parse_order_from_id "18446744073709551616-intro" = none ∧
      entryOrder none "18446744073709551616-intro" = USIZE_MAX :=
  ⟨by decide, by decide, c10_theorem "18446744073709551616-intro" (by decide) (by decide)⟩

/-- C5 (code bug): `parse_entry_markdown` pipes the front-matter parser's
result through `.ok()?`, so the moment `gray_matter`'s `Matter::parse`
reports an error on a malformed front-matter block the whole entry is
dropped (`None`) — the defaults of the `unwrap_or_default` branch are never
reached, contradicting the spec's "missing or malformed front matter yields
defaults rather than failing the entry". -/
theorem c5_theorem {Y : Type} (engine : FrontMatterEngine Y) (content : String)
    (h : engine.matterParse content = none) :
    parse_entry_markdown engine (some content) = none := by
  simp only [parse_entry_markdown, h]

/-- C5 witness: a front-matter engine that rejects the document whose
front-matter block `title: [unclosed` is not valid YAML. -/
theorem c5_witness :
    (FrontMatterEngine.matterParse (Y := Unit)
        ⟨fun s => if s = "---\ntitle: [unclosed\n---\nbody" then none
            else some (none, s),
          fun _ => none⟩ "---\ntitle: [unclosed\n---\nbody") = none ∧
      parse_entry_markdown (Y := Unit)
        ⟨fun s => if s = "---\ntitle: [unclosed\n---\nbody" then none
            else some (none, s),
          fun _ => none⟩ (some "---\ntitle: [unclosed\n---\nbody") = none :=
  ⟨by decide, c5_theorem _ _ (by decide)⟩

/-- C6 (code bug): on the event stream pulldown-cmark produces for
`![Alt](image.png) <img src="video.mp4">` — `Start(Image)` with destination
`image.png`, the alt text, `End(Image)`, a space, and one inline-HTML
fragment — `collect_markdown_asset_references` returns only `video.mp4`:
the match arm for image events discards their destinations, contradicting
both the claim and the repository test
`collects_asset_references_from_markdown`.  On the plain-text body
`https://x/y.png` it returns the empty set as claimed. -/
theorem c6_theorem :
    collect_markdown_asset_references
        [.other, .startImage "image.png", .text "Alt", .endImage, .text " ",
          .inlineHtml "<img src=\"video.mp4\">", .other] = ["video.mp4"] ∧
      "image.png" ∉ collect_markdown_asset_references
        [.other, .startImage "image.png", .text "Alt", .endImage, .text " ",
          .inlineHtml "<img src=\"video.mp4\">", .other] ∧
      collect_markdown_asset_references [.other, .text "https://x/y.png", .other] = [] := by
  decide

/-- C8: first write wins in the asset map.  Once a key holds an entry, the
directory-scanning step skips the key entirely (state unchanged), and a
later hero-image registration of the same key leaves the asset map and the
identifier set untouched — the stored entry, its generated identifier and
its literal path all survive. -/
theorem c8_theorem (ops : RustStringOps) (cfg : AssetScanParams)
    (st : GenState) (pid rel : String) (e : AssetEntry)
    (h : lookupA st.assetMap (pid, rel) = some e) :
    collectFileStep ops cfg pid rel st = st ∧
      ∀ {Y : Type} (ext : Externals Y) (layout : OfflineProjectLayout)
        (hero : String), replaceBackslashes (trimStartSlashes hero) = rel →
          (registerHero ext layout pid (some hero) st).assetMap = st.assetMap ∧
          (registerHero ext layout pid (some hero) st).usedNames = st.usedNames ∧
          lookupA (registerHero ext layout pid (some hero) st).assetMap
            (pid, rel) = some e := by
  constructor
  · simp only [collectFileStep]
    split
    · rfl
    · rw [h]
      simp
  · intro Y ext layout hero hr
    simp only [registerHero]
    rw [hr]
    by_cases hempty : rel = ""
    · rw [if_pos hempty]
      exact ⟨rfl, rfl, h⟩
    · rw [if_neg hempty]
      have hsome : (lookupA st.assetMap (pid, rel)).isSome = true := by
        rw [h]; rfl
      rw [if_pos hsome, h]
      exact ⟨rfl, rfl, h⟩

/-- C8 witness: a one-entry asset map hit by a re-discovery of its key and
by a hero registration normalising to the same key. -/
theorem c8_witness :
    lookupA [(("c", "a.png"), ⟨"C_A_PNG", "/content/programs/c/a.png", "c", "a.png"⟩)]
        ("c", "a.png") =
      some ⟨"C_A_PNG", "/content/programs/c/a.png", "c", "a.png"⟩ ∧
      replaceBackslashes (trimStartSlashes "/a.png") = "a.png" ∧
      collectFileStep ⟨id, fun _ => true⟩
        ⟨"prod", "assets", "index.md", "/prod/", "/content/programs", "collection.json"⟩
        "c" "a.png"
        ⟨[(("c", "a.png"), ⟨"C_A_PNG", "/content/programs/c/a.png", "c", "a.png"⟩)],
          ["C_A_PNG"], [], [], [], []⟩ =
        ⟨[(("c", "a.png"), ⟨"C_A_PNG", "/content/programs/c/a.png", "c", "a.png"⟩)],
          ["C_A_PNG"], [], [], [], []⟩ ∧
      (registerHero (Y := Unit)
          ⟨⟨id, fun _ => true⟩, ⟨fun s => some (none, s), fun _ => none⟩,
            fun _ => [], fun _ => none, fun s => s⟩ testLayout "c" (some "/a.png")
          ⟨[(("c", "a.png"), ⟨"C_A_PNG", "/content/programs/c/a.png", "c", "a.png"⟩)],
            ["C_A_PNG"], [], [], [], []⟩).assetMap =
        [(("c", "a.png"), ⟨"C_A_PNG", "/content/programs/c/a.png", "c", "a.png"⟩)] :=
  ⟨by decide, by decide,
    (c8_theorem ⟨id, fun _ => true⟩
      ⟨"prod", "assets", "index.md", "/prod/", "/content/programs", "collection.json"⟩
      ⟨[(("c", "a.png"), ⟨"C_A_PNG", "/content/programs/c/a.png", "c", "a.png"⟩)],
        ["C_A_PNG"], [], [], [], []⟩ "c" "a.png"
      ⟨"C_A_PNG", "/content/programs/c/a.png", "c", "a.png"⟩ (by decide)).1,
    ((c8_theorem ⟨id, fun _ => true⟩
      ⟨"prod", "assets", "index.md", "/prod/", "/content/programs", "collection.json"⟩
      ⟨[(("c", "a.png"), ⟨"C_A_PNG", "/content/programs/c/a.png", "c", "a.png"⟩)],
        ["C_A_PNG"], [], [], [], []⟩ "c" "a.png"
      ⟨"C_A_PNG", "/content/programs/c/a.png", "c", "a.png"⟩ (by decide)).2
      _ testLayout "/a.png" (by decide)).1⟩

theorem findSome?_first_hit {α β : Type} (f : α → Option β) :
    ∀ (pre : List α) (c : α) (post : List α) (y : β),
      (∀ x ∈ pre, f x = none) → f c = some y →
      (pre ++ c :: post).findSome? f = some y := by
  intro pre
  induction pre with
  | nil =>
    intro c post y _ hc
    simp [List.findSome?, hc]
  | cons a rest IH =>
    intro c post y hpre hc
    have ha : f a = none := hpre a (by simp)
    simp only [List.cons_append, List.findSome?, ha]
    exact IH c post y (fun x hx => hpre x (by simp [hx])) hc

theorem replaceBackslashes_eq_self {s : String} (h : '\\' ∉ s.data) :
    replaceBackslashes s = s := by
  refine String.ext ?_
  show s.data.map _ = s.data
  conv_rhs => rw [← List.map_id s.data]
  apply List.map_congr_left
  intro x hx
  simp only [id_eq]
  rw [if_neg]
  intro hxeq
  exact h (hxeq ▸ hx)

theorem c2_candidates (layout : OfflineProjectLayout)
    (h : layout.entry_assets_dir = "assets") :
    generate_asset_candidates layout "e" none "img.png" =
      ["img.png", "e/assets/img.png", "e/img.png"] := by
  have hstep : generate_asset_candidates layout "e" none "img.png" =
      (pushCand (addEntryScopeCandidates layout (some "img.png") (some "e")
        ⟨["img.png"], ["img.png"]⟩) "img.png").result := rfl
  rw [hstep]
  simp only [addEntryScopeCandidates]
  rw [h]
  decide

/-- C2 (amended): the first part is the round trip, conditioned on the test
layout's assets directory, a map entry whose stored fields mirror its key,
and the absence of the earlier candidate `img.png` from the map; the second
part is the general rule that the first candidate (in generation order)
present in the asset map determines the resolved bundle path, built from
the stored entry's collection id and relative path. -/
theorem c2_theorem :
    (∀ (layout : OfflineProjectLayout) (m : AssetMap) (e : AssetEntry),
      layout.entry_assets_dir = "assets" →
      '\\' ∉ layout.collections_dir_name.data →
      lookupA m ("c", "e/assets/img.png") = some e →
      e.collection_id = "c" → e.relative_path = "e/assets/img.png" →
      lookupA m ("c", "img.png") = none →
      resolve_markdown_assets layout ["img.png"] m "c" "e" none =
        ([layout.collections_dir_name ++ "/c/e/assets/img.png"], [])) ∧
    (∀ (layout : OfflineProjectLayout) (m : AssetMap) (cid eid ref : String)
      (slug : Option String) (pre post : List String) (c : String) (e : AssetEntry),
      generate_asset_candidates layout eid slug ref = pre ++ c :: post →
      (∀ x ∈ pre, lookupA m (cid, x) = none) →
      lookupA m (cid, c) = some e →
      resolveOneRef layout m cid eid slug ref =
        some (make_offline_asset_path layout e.collection_id e.relative_path)) := by
  have hgeneral : ∀ (layout : OfflineProjectLayout) (m : AssetMap)
      (cid eid ref : String) (slug : Option String) (pre post : List String)
      (c : String) (e : AssetEntry),
      generate_asset_candidates layout eid slug ref = pre ++ c :: post →
      (∀ x ∈ pre, lookupA m (cid, x) = none) →
      lookupA m (cid, c) = some e →
      resolveOneRef layout m cid eid slug ref =
        some (make_offline_asset_path layout e.collection_id e.relative_path) := by
    intro layout m cid eid ref slug pre post c e hgen hpre hc
    unfold resolveOneRef
    rw [hgen]
    exact findSome?_first_hit _ pre c post _
      (fun x hx => by rw [hpre x hx]; rfl) (by rw [hc]; rfl)
  refine ⟨?_, hgeneral⟩
  intro layout m e hassets hnb hhit hcid hrel hmiss
  have hone : resolveOneRef layout m "c" "e" none "img.png" =
      some (make_offline_asset_path layout e.collection_id e.relative_path) :=
    hgeneral layout m "c" "e" "img.png" none ["img.png"] ["e/img.png"]
      "e/assets/img.png" e
      (by rw [c2_candidates layout hassets]; rfl)
      (by intro x hx; simp only [List.mem_singleton] at hx; rw [hx]; exact hmiss)
      hhit
  have hpath : make_offline_asset_path layout e.collection_id e.relative_path =
      layout.collections_dir_name ++ "/c/e/assets/img.png" := by
    rw [hcid, hrel]
    unfold make_offline_asset_path
    have harg : layout.collections_dir_name ++ "/" ++ "c" ++ "/" ++
        "e/assets/img.png" = layout.collections_dir_name ++ "/c/e/assets/img.png" := by
      refine String.ext ?_
      simp only [String.data_append, List.append_assoc]
      congr 1
    rw [harg]
    apply replaceBackslashes_eq_self
    rw [String.data_append]
    intro hmem
    rcases List.mem_append.1 hmem with hmem | hmem
    · exact hnb hmem
    · have : '\\' ∉ ("/c/e/assets/img.png" : String).data := by decide
      exact this hmem
  simp only [resolve_markdown_assets, List.foldl_cons, List.foldl_nil, hone, hpath]
  rfl

/-- C2 witness: the amended round trip on the repository's own resolution
test (`resolves_references_against_asset_map`), with a one-entry map. -/
theorem c2_witness :
    testLayout.entry_assets_dir = "assets" ∧
      '\\' ∉ testLayout.collections_dir_name.data ∧
      lookupA [(("c", "e/assets/img.png"),
          ⟨"CONST", "", "c", "e/assets/img.png"⟩)] ("c", "e/assets/img.png") =
        some ⟨"CONST", "", "c", "e/assets/img.png"⟩ ∧
      lookupA [(("c", "e/assets/img.png"),
          ⟨"CONST", "", "c", "e/assets/img.png"⟩)] ("c", "img.png") = none ∧
      resolve_markdown_assets testLayout ["img.png"]
          [(("c", "e/assets/img.png"), ⟨"CONST", "", "c", "e/assets/img.png"⟩)]
          "c" "e" none =
        ([testLayout.collections_dir_name ++ "/c/e/assets/img.png"], []) :=
  ⟨by decide, by decide, by decide, by decide,
    c2_theorem.1 testLayout
      [(("c", "e/assets/img.png"), ⟨"CONST", "", "c", "e/assets/img.png"⟩)]
      ⟨"CONST", "", "c", "e/assets/img.png"⟩
      (by decide) (by decide) (by decide) (by decide) (by decide) (by decide)⟩

/-- C2 counterexample: when the asset map also contains the earlier
candidate key `("c", "img.png")`, that candidate wins, the resolved path is
`programs/c/img.png`, and the claimed bundle path
`programs/c/e/assets/img.png` does not appear although the map contains the
key `("c", "e/assets/img.png")`. -/
theorem c2_counterexample :
    resolve_markdown_assets testLayout ["img.png"]
        [(("c", "img.png"), ⟨"N1", "", "c", "img.png"⟩),
          (("c", "e/assets/img.png"), ⟨"N2", "", "c", "e/assets/img.png"⟩)]
        "c" "e" none = (["programs/c/img.png"], []) ∧
      "programs/c/e/assets/img.png" ∉
        (resolve_markdown_assets testLayout ["img.png"]
          [(("c", "img.png"), ⟨"N1", "", "c", "img.png"⟩),
            (("c", "e/assets/img.png"), ⟨"N2", "", "c", "e/assets/img.png"⟩)]
          "c" "e" none).1 := by
  decide

/-!  ## Identifier sanitiser: collapse loop versus single-pass collapse -/

theorem replaceAllUU_head (l : List Char) : (replaceAllUU l).head? = l.head? := by
  rw [replaceAllUU.eq_def]
  split <;> rfl

theorem replaceAllUU_cons_ne (c : Char) (rest : List Char)
    (h : ∀ r, c = '_' → rest = '_' :: r → False) :
    replaceAllUU (c :: rest) = c :: replaceAllUU rest := by
  rw [replaceAllUU.eq_def]
  split
  · rename_i r heq
    obtain ⟨hc, hrest⟩ := List.cons.inj heq
    exact absurd (h r hc hrest) (by simp)
  · rename_i c2 r2 heq
    obtain ⟨hc, hrest⟩ := List.cons.inj heq
    rw [hc, hrest]
  · rename_i heq
    simp at heq

theorem containsUU_cons_ne (c : Char) (rest : List Char)
    (h : ∀ r, c = '_' → rest = '_' :: r → False) :
    containsUU (c :: rest) = containsUU rest := by
  rw [containsUU.eq_def]
  split
  · rename_i r heq
    obtain ⟨hc, hrest⟩ := List.cons.inj heq
    exact absurd (h r hc hrest) (by simp)
  · rename_i c2 r2 heq
    obtain ⟨hc, hrest⟩ := List.cons.inj heq
    rw [hrest]
  · rename_i heq
    simp at heq

theorem replaceAllUU_len (l : List Char) : (replaceAllUU l).length ≤ l.length := by
  induction l using replaceAllUU.induct with
  | case1 rest IH =>
    show ('_' :: replaceAllUU rest).length ≤ ('_' :: '_' :: rest).length
    simp only [List.length_cons]
    omega
  | case2 c rest h IH =>
    rw [replaceAllUU_cons_ne c rest h]
    simp only [List.length_cons]
    omega
  | case3 => rfl

theorem replaceAllUU_shrink (l : List Char) (h : containsUU l = true) :
    (replaceAllUU l).length < l.length := by
  induction l using containsUU.induct with
  | case1 rest =>
    show ('_' :: replaceAllUU rest).length < ('_' :: '_' :: rest).length
    have := replaceAllUU_len rest
    simp only [List.length_cons]
    omega
  | case2 c rest hne IH =>
    rw [containsUU_cons_ne c rest hne] at h
    rw [replaceAllUU_cons_ne c rest hne]
    have := IH h
    simp only [List.length_cons]
    omega
  | case3 => simp [containsUU] at h

theorem collapseRuns_uu (rest : List Char) :
    collapseRuns ('_' :: '_' :: rest) = collapseRuns ('_' :: rest) := by
  rw [collapseRuns.eq_def]
  simp

theorem collapseRuns_cons_ne (c d : Char) (rest : List Char)
    (h : ¬(c = '_' ∧ d = '_')) :
    collapseRuns (c :: d :: rest) = c :: collapseRuns (d :: rest) := by
  rw [collapseRuns.eq_def]
  simp only [if_neg h]

theorem collapseRuns_of_not_containsUU (l : List Char) (h : containsUU l = false) :
    collapseRuns l = l := by
  induction l using collapseRuns.induct with
  | case1 => rfl
  | case2 c => rfl
  | case3 c d rest hcd IH =>
    rw [hcd.1, hcd.2] at h
    rw [containsUU.eq_def] at h
    simp at h
  | case4 c d rest hcd IH =>
    have hrest : containsUU (d :: rest) = false := by
      rw [containsUU_cons_ne c (d :: rest)] at h
      · exact h
      · intro r hc hdr
        obtain ⟨hd, _⟩ := List.cons.inj hdr
        exact hcd ⟨hc, hd⟩
    rw [collapseRuns_cons_ne c d rest hcd, IH hrest]

theorem collapseRuns_replaceAllUU :
    ∀ (n : ℕ) (l : List Char), l.length ≤ n →
      collapseRuns (replaceAllUU l) = collapseRuns l ∧
      collapseRuns ('_' :: replaceAllUU l) = collapseRuns ('_' :: l) := by
  intro n
  induction n with
  | zero =>
    intro l hl
    have : l = [] := List.length_eq_zero.1 (Nat.le_zero.1 hl)
    subst this
    exact ⟨rfl, rfl⟩
  | succ n IH =>
    intro l hl
    cases l with
    | nil => exact ⟨rfl, rfl⟩
    | cons c rest =>
      cases rest with
      | nil =>
        have h1 : replaceAllUU [c] = [c] :=
          replaceAllUU_cons_ne c [] (by intro r _ h; simp at h)
        rw [h1]
        exact ⟨rfl, rfl⟩
      | cons d rest2 =>
        have hlen2 : (d :: rest2).length ≤ n := by
          simp only [List.length_cons] at hl ⊢
          omega
        by_cases hc : c = '_' ∧ d = '_'
        · obtain ⟨hc1, hc2⟩ := hc
          subst hc1; subst hc2
          have hr : replaceAllUU ('_' :: '_' :: rest2) = '_' :: replaceAllUU rest2 := rfl
          have hlen3 : rest2.length ≤ n := by
            simp only [List.length_cons] at hl
            omega
          constructor
          · rw [hr, collapseRuns_uu rest2]
            exact (IH rest2 hlen3).2
          · rw [hr, collapseRuns_uu (replaceAllUU rest2), collapseRuns_uu ('_' :: rest2),
              collapseRuns_uu rest2]
            exact (IH rest2 hlen3).2
        · have hr : replaceAllUU (c :: d :: rest2) = c :: replaceAllUU (d :: rest2) := by
            apply replaceAllUU_cons_ne
            intro r hc1 hdr
            obtain ⟨hd, _⟩ := List.cons.inj hdr
            exact hc ⟨hc1, hd⟩
          have hhead : (replaceAllUU (d :: rest2)).head? = some d := by
            rw [replaceAllUU_head]; rfl
          obtain ⟨tl, htl⟩ : ∃ tl, replaceAllUU (d :: rest2) = d :: tl := by
            cases hrep : replaceAllUU (d :: rest2) with
            | nil => rw [hrep] at hhead; simp at hhead
            | cons x xs =>
              rw [hrep] at hhead
              simp only [List.head?_cons, Option.some.injEq] at hhead
              exact ⟨xs, by rw [hhead]⟩
          have hP : collapseRuns (replaceAllUU (c :: d :: rest2)) =
              collapseRuns (c :: d :: rest2) := by
            rw [hr, htl, collapseRuns_cons_ne c d tl hc, ← htl,
              (IH (d :: rest2) hlen2).1, collapseRuns_cons_ne c d rest2 hc]
          refine ⟨hP, ?_⟩
          by_cases hcu : c = '_'
          · subst hcu
            rw [hr, collapseRuns_uu (replaceAllUU (d :: rest2)),
              collapseRuns_uu (d :: rest2)]
            exact (IH (d :: rest2) hlen2).2
          · rw [hr]
            rw [collapseRuns_cons_ne '_' c (replaceAllUU (d :: rest2))
              (by intro hx; exact hcu hx.2)]
            rw [collapseRuns_cons_ne '_' c (d :: rest2)
              (by intro hx; exact hcu hx.2)]
            rw [← hr, hP]

theorem collapseLoop_eq_collapseRuns :
    ∀ (fuel : ℕ) (l : List Char), l.length ≤ fuel →
      collapseLoop fuel l = collapseRuns l := by
  intro fuel
  induction fuel with
  | zero =>
    intro l hl
    have : l = [] := List.length_eq_zero.1 (Nat.le_zero.1 hl)
    subst this
    rfl
  | succ n IH =>
    intro l hl
    show (if containsUU l then collapseLoop n (replaceAllUU l) else l) = collapseRuns l
    by_cases hc : containsUU l
    · rw [if_pos hc]
      have hshrink := replaceAllUU_shrink l hc
      rw [IH (replaceAllUU l) (by omega)]
      exact (collapseRuns_replaceAllUU l.length l (le_refl _)).1
    · rw [if_neg hc]
      exact (collapseRuns_of_not_containsUU l (by simpa using hc)).symm

/-!  ## Identifier sanitiser: decimal rendering and the collision loop -/

theorem digitChar_toNat : ∀ m, m < 10 → (Nat.digitChar m).toNat = 48 + m := by
  decide

theorem natDecimalAux_foldr :
    ∀ (fuel n : ℕ), n ≤ fuel →
      (natDecimalAux fuel n).foldr (fun c acc => (c.toNat - 48) + 10 * acc) 0 = n := by
  intro fuel
  induction fuel with
  | zero =>
    intro n hn
    have : n = 0 := Nat.le_zero.1 hn
    subst this
    rfl
  | succ f IH =>
    intro n hn
    show ((if n = 0 then [] else Nat.digitChar (n % 10) :: natDecimalAux f (n / 10)).foldr
      _ 0) = n
    by_cases h0 : n = 0
    · subst h0; rfl
    · rw [if_neg h0]
      have hdiv : n / 10 ≤ f := by
        have := Nat.div_lt_self (Nat.pos_of_ne_zero h0) (by omega : 1 < 10)
        omega
      simp only [List.foldr_cons, IH (n / 10) hdiv]
      rw [digitChar_toNat (n % 10) (Nat.mod_lt n (by omega))]
      omega

theorem natDecimal_inj_pos {a b : ℕ} (ha : 1 ≤ a) (hb : 1 ≤ b)
    (h : natDecimal a = natDecimal b) : a = b := by
  unfold natDecimal at h
  rw [if_neg (by omega), if_neg (by omega)] at h
  have hdata := congrArg String.data h
  simp only at hdata
  have hrev := congrArg List.reverse hdata
  simp only [List.reverse_reverse] at hrev
  have := congrArg (List.foldr (fun c acc => (c.toNat - 48) + 10 * acc) 0) hrev
  rwa [natDecimalAux_foldr a a (le_refl a), natDecimalAux_foldr b b (le_refl b)] at this

theorem numbered_inj {base : String} {a b : ℕ} (ha : 1 ≤ a) (hb : 1 ≤ b)
    (h : numbered base a = numbered base b) : a = b := by
  unfold numbered at h
  have hdata := congrArg String.data h
  simp only [String.data_append] at hdata
  have := List.append_cancel_left hdata
  exact natDecimal_inj_pos ha hb (String.ext this)

theorem numbered_exists_fresh (used : List String) (base : String) :
    ∃ j, 1 ≤ j ∧ j ≤ used.length + 1 ∧ numbered base j ∉ used := by
  by_contra hcon
  push_neg at hcon
  have hinj : Set.InjOn (numbered base) (Finset.Icc 1 (used.length + 1)) := by
    intro a ha b hb hab
    simp only [Finset.coe_Icc, Set.mem_Icc] at ha hb
    exact numbered_inj ha.1 hb.1 hab
  have hsub : (Finset.Icc 1 (used.length + 1)).image (numbered base) ⊆
      used.toFinset := by
    intro x hx
    simp only [Finset.mem_image, Finset.mem_Icc] at hx
    obtain ⟨j, ⟨hj1, hj2⟩, rfl⟩ := hx
    exact List.mem_toFinset.2 (hcon j hj1 hj2)
  have hcard1 : ((Finset.Icc 1 (used.length + 1)).image (numbered base)).card =
      used.length + 1 := by
    rw [Finset.card_image_of_injOn hinj, Nat.card_Icc]
    omega
  have hcard2 : used.toFinset.card ≤ used.length := used.toFinset_card_le
  have := Finset.card_le_card hsub
  omega

theorem findFreshAux_spec (used : List String) (base : String) :
    ∀ (fuel k : ℕ),
      (∃ j, k ≤ j ∧ j < k + fuel ∧ numbered base j ∉ used) →
      ∃ m, k ≤ m ∧ findFreshAux used base fuel k = numbered base m ∧
        numbered base m ∉ used ∧
        ∀ j, k ≤ j → j < m → numbered base j ∈ used := by
  intro fuel
  induction fuel with
  | zero =>
    intro k ⟨j, hj1, hj2, _⟩
    omega
  | succ n IH =>
    intro k ⟨j, hj1, hj2, hj3⟩
    show ∃ m, k ≤ m ∧
      (if numbered base k ∈ used then findFreshAux used base n (k + 1)
        else numbered base k) = numbered base m ∧ _
    by_cases hk : numbered base k ∈ used
    · rw [if_pos hk]
      have hex : ∃ j2, k + 1 ≤ j2 ∧ j2 < (k + 1) + n ∧ numbered base j2 ∉ used := by
        refine ⟨j, ?_, by omega, hj3⟩
        rcases Nat.eq_or_lt_of_le hj1 with heq | hlt
        · exact absurd (heq ▸ hk) hj3
        · omega
      obtain ⟨m, hm1, hm2, hm3, hm4⟩ := IH (k + 1) hex
      refine ⟨m, by omega, hm2, hm3, ?_⟩
      intro j2 hj21 hj22
      rcases Nat.eq_or_lt_of_le hj21 with heq | hlt
      · exact heq ▸ hk
      · exact hm4 j2 (by omega) hj22
    · rw [if_neg hk]
      exact ⟨k, le_refl k, rfl, hk, fun j2 h1 h2 => by omega⟩

/-- C7: `sanitize_const_name` computes the identifier the claim describes —
join scope and path with an underscore, uppercase, map non-alphanumerics to
`'_'`, collapse underscore runs, prefix `'_'` before a leading digit
(`claimBase`) — and on a collision returns `base_k` for the smallest
`k ≥ 1` absent from the used set; the result is never in the used set.
`to_uppercase` and `is_alphanumeric` are the Rust Unicode tables, abstracted
as the parameters `up` and `isAlnum`. -/
theorem c7_theorem (up : String → String) (isAlnum : Char → Bool)
    (programId relativePath : String) (used : List String) :
    sanitize_const_name up isAlnum programId relativePath used ∉ used ∧
      (claimBase up isAlnum programId relativePath ∉ used →
        sanitize_const_name up isAlnum programId relativePath used =
          claimBase up isAlnum programId relativePath) ∧
      (claimBase up isAlnum programId relativePath ∈ used →
        ∃ k, 1 ≤ k ∧
          sanitize_const_name up isAlnum programId relativePath used =
            numbered (claimBase up isAlnum programId relativePath) k ∧
          numbered (claimBase up isAlnum programId relativePath) k ∉ used ∧
          ∀ j, 1 ≤ j → j < k →
            numbered (claimBase up isAlnum programId relativePath) j ∈ used) := by
  have hsan : sanitize_const_name up isAlnum programId relativePath used =
      (if claimBase up isAlnum programId relativePath ∈ used then
        findFreshAux used (claimBase up isAlnum programId relativePath)
          (used.length + 1) 1
      else claimBase up isAlnum programId relativePath) := by
    simp only [sanitize_const_name, claimBase]
    rw [collapseLoop_eq_collapseRuns _ _ (le_refl _)]
  by_cases hmem : claimBase up isAlnum programId relativePath ∈ used
  · rw [hsan, if_pos hmem]
    obtain ⟨j, hj1, hj2, hj3⟩ :=
      numbered_exists_fresh used (claimBase up isAlnum programId relativePath)
    obtain ⟨m, hm1, hm2, hm3, hm4⟩ :=
      findFreshAux_spec used (claimBase up isAlnum programId relativePath)
        (used.length + 1) 1 ⟨j, hj1, by omega, hj3⟩
    rw [hm2]
    exact ⟨hm3, fun hnot => absurd hmem hnot,
      fun _ => ⟨m, hm1, rfl, hm3, hm4⟩⟩
  · rw [hsan, if_neg hmem]
    exact ⟨hmem, fun _ => rfl, fun hmem2 => absurd hmem2 hmem⟩

/-- C7 witness: the spec's own example — scope `p`, path `a--b.png`, whose
base sanitises to `P_A_B_PNG`; with that base already used, the returned
identifier is fresh and carries the `_1` suffix for the smallest free
counter. -/
theorem c7_witness :
    claimBase (fun s => ⟨s.data.map Char.toUpper⟩) Char.isAlphanum
        "p" "a--b.png" ∈ ["P_A_B_PNG"] ∧
      ∃ k, 1 ≤ k ∧
        sanitize_const_name (fun s => ⟨s.data.map Char.toUpper⟩) Char.isAlphanum
          "p" "a--b.png" ["P_A_B_PNG"] =
          numbered (claimBase (fun s => ⟨s.data.map Char.toUpper⟩) Char.isAlphanum
            "p" "a--b.png") k ∧
        numbered (claimBase (fun s => ⟨s.data.map Char.toUpper⟩) Char.isAlphanum
          "p" "a--b.png") k ∉ ["P_A_B_PNG"] ∧
        ∀ j, 1 ≤ j → j < k →
          numbered (claimBase (fun s => ⟨s.data.map Char.toUpper⟩) Char.isAlphanum
            "p" "a--b.png") j ∈ ["P_A_B_PNG"] :=
  ⟨by decide,
    (c7_theorem (fun s => ⟨s.data.map Char.toUpper⟩) Char.isAlphanum
      "p" "a--b.png" ["P_A_B_PNG"]).2.2 (by decide)⟩

/-!  ## Catalog-frame lemmas for the walk -/

theorem collectFileStep_catalog (ops : RustStringOps) (cfg : AssetScanParams)
    (pid rel : String) (st : GenState) :
    (collectFileStep ops cfg pid rel st).collectionCatalog = st.collectionCatalog := by
  unfold collectFileStep
  split
  · rfl
  · split
    · rfl
    · rfl

theorem collectAssets_catalog_all (n : ℕ) :
    (∀ (node : FsNode), sizeOf node ≤ n →
      ∀ (ops : RustStringOps) (cfg : AssetScanParams) (pid rr : String)
        (ia : Bool) (st : GenState),
        (collectAssets ops cfg pid rr ia st node).collectionCatalog =
          st.collectionCatalog) ∧
    (∀ (l : List FsNode), sizeOf l ≤ n →
      ∀ (ops : RustStringOps) (cfg : AssetScanParams) (pid rr : String)
        (ia : Bool) (st : GenState),
        (collectAssetsChildren ops cfg pid rr ia st l).collectionCatalog =
          st.collectionCatalog) := by
  induction n using Nat.strong_induction_on with
  | _ n IH =>
    constructor
    · intro node hsz ops cfg pid rr ia st
      cases node with
      | file nm c => simp only [collectAssets]
      | dir nm cs =>
        simp only [collectAssets]
        have hcs : sizeOf cs < n := by
          have : sizeOf (FsNode.dir nm cs) = 1 + sizeOf nm + sizeOf cs := by simp
          omega
        exact (IH (sizeOf cs) hcs).2 cs (le_refl _) ops cfg pid rr ia st
    · intro l hsz ops cfg pid rr ia st
      cases l with
      | nil => simp only [collectAssetsChildren]
      | cons child rest =>
        simp only [collectAssetsChildren]
        have hsplit : sizeOf (child :: rest) = 1 + sizeOf child + sizeOf rest := by
          simp
        have hrest : sizeOf rest < n := by omega
        have hchild : sizeOf child < n := by omega
        rw [(IH (sizeOf rest) hrest).2 rest (le_refl _)]
        simp only [collectAssetsChildStep]
        split
        · rfl
        · split
          · split
            · rfl
            · exact (IH _ hchild).1 _ (le_refl _) ops cfg pid _ _ st
          · split
            · exact collectFileStep_catalog ops cfg pid _ st
            · rfl

theorem registerHero_catalog {Y : Type} (ext : Externals Y)
    (layout : OfflineProjectLayout) (cid : String) (heroImage : Option String)
    (st : GenState) :
    (registerHero ext layout cid heroImage st).collectionCatalog =
      st.collectionCatalog := by
  cases heroImage with
  | none => rfl
  | some hero =>
    simp only [registerHero]
    by_cases h1 : replaceBackslashes (trimStartSlashes hero) = ""
    · rw [if_pos h1]
    · rw [if_neg h1]
      by_cases h2 : (lookupA st.assetMap
          (cid, replaceBackslashes (trimStartSlashes hero))).isSome
      · rw [if_pos h2]
        split <;> rfl
      · rw [if_neg h2]
        split <;> rfl

theorem processEntry_catalog {Y : Type} (ext : Externals Y)
    (layout : OfflineProjectLayout) (meta : CollectionMetaRecord)
    (cid eid : String) (entryChildren : List FsNode)
    (acc : GenState × List (ℕ × EntryRecord)) :
    ((processEntry ext layout meta cid eid entryChildren acc).1).collectionCatalog =
      (acc.1).collectionCatalog := by
  unfold processEntry
  split <;> rfl

theorem entriesFold_catalog {α : Type}
    (f : GenState × List (ℕ × EntryRecord) → α → GenState × List (ℕ × EntryRecord))
    (l : List α)
    (hf : ∀ acc a, ((f acc a).1).collectionCatalog = (acc.1).collectionCatalog) :
    ∀ acc, ((l.foldl f acc).1).collectionCatalog = (acc.1).collectionCatalog := by
  induction l with
  | nil => intro acc; rfl
  | cons a rest IH =>
    intro acc
    rw [List.foldl_cons, IH (f acc a), hf acc a]

theorem processCollection_catalog {Y : Type} (ext : Externals Y)
    (layout : OfflineProjectLayout) (node : FsNode) (children : List FsNode)
    (cid : String) (meta : CollectionMetaRecord) (st : GenState) :
    ∃ entries, (processCollection ext layout node children cid meta st).collectionCatalog =
      st.collectionCatalog ++ [⟨cid, meta, entries⟩] := by
  simp only [processCollection]
  apply Exists.intro
  case h =>
    show _ ++ _ = _ ++ _
    congr 1
    · refine (entriesFold_catalog _ children ?_ _).trans ?_
      · intro acc a
        cases a with
        | file nm c => rfl
        | dir eid ec =>
          repeat' split
          any_goals rfl
          all_goals apply processEntry_catalog
      · show (registerHero ext layout cid meta.hero_image
            (collectAssets ext.ops
              ⟨layout.excluded_dir_name, layout.entry_assets_dir,
                layout.entry_markdown_file, layout.excluded_path_fragment,
                layout.collection_asset_literal_prefix,
                layout.collection_metadata_file⟩ cid "" false st node)).collectionCatalog =
          st.collectionCatalog
        rw [registerHero_catalog]
        exact (collectAssets_catalog_all (sizeOf node)).1 node (le_refl _) ext.ops _
          cid "" false st

theorem walk_catalog_mono_all (n : ℕ) :
    (∀ (node : FsNode), sizeOf node ≤ n →
      ∀ (Y : Type) (ext : Externals Y) (layout : OfflineProjectLayout)
        (cid : String) (sel : String → Bool) (st : GenState),
        ∃ t, (walk_collection_tree ext layout node cid sel st).collectionCatalog =
          st.collectionCatalog ++ t) ∧
    (∀ (l : List FsNode), sizeOf l ≤ n →
      ∀ (Y : Type) (ext : Externals Y) (layout : OfflineProjectLayout)
        (cid : String) (sel : String → Bool) (st : GenState),
        ∃ t, (walkChildren ext layout cid sel st l).collectionCatalog =
          st.collectionCatalog ++ t) ∧
    (∀ (child : FsNode), sizeOf child ≤ n →
      ∀ (Y : Type) (ext : Externals Y) (layout : OfflineProjectLayout)
        (cid : String) (sel : String → Bool) (st : GenState),
        ∃ t, (walkChildStep ext layout cid sel st child).collectionCatalog =
          st.collectionCatalog ++ t) := by
  induction n using Nat.strong_induction_on with
  | _ n IH =>
    have hP1 : ∀ (node : FsNode), sizeOf node ≤ n →
        ∀ (Y : Type) (ext : Externals Y) (layout : OfflineProjectLayout)
          (cid : String) (sel : String → Bool) (st : GenState),
          ∃ t, (walk_collection_tree ext layout node cid sel st).collectionCatalog =
            st.collectionCatalog ++ t := by
      intro node hsz Y ext layout cid sel st
      cases node with
      | file nm c => exact ⟨[], by simp [walk_collection_tree]⟩
      | dir nm children =>
        simp only [walk_collection_tree]
        have hch : sizeOf children < n := by
          have : sizeOf (FsNode.dir nm children) = 1 + sizeOf nm + sizeOf children := by
            simp
          omega
        rcases hL : (findFile children layout.collection_metadata_file).bind
            ext.parseMetaDoc with _ | ⟨mo, ov⟩
        · simp only [hL]
          exact (IH (sizeOf children) hch).2.1 children (le_refl _) Y ext layout cid sel st
        · simp only [hL]
          cases mo with
          | none =>
            exact (IH (sizeOf children) hch).2.1 children (le_refl _) Y ext
              (applyToLayout ov layout) cid sel st
          | some m =>
            by_cases hs : sel cid
            · simp only [if_pos hs]
              obtain ⟨E, hE⟩ := processCollection_catalog ext (applyToLayout ov layout)
                (.dir nm children) children cid m st
              obtain ⟨t1, ht1⟩ := (IH (sizeOf children) hch).2.1 children (le_refl _)
                Y ext (applyToLayout ov layout) cid sel
                (processCollection ext (applyToLayout ov layout) (.dir nm children)
                  children cid m st)
              exact ⟨[⟨cid, m, E⟩] ++ t1, by rw [ht1, hE, List.append_assoc]⟩
            · simp only [if_neg hs]
              exact (IH (sizeOf children) hch).2.1 children (le_refl _) Y ext
                (applyToLayout ov layout) cid sel st
    have hP3 : ∀ (child : FsNode), sizeOf child ≤ n →
        ∀ (Y : Type) (ext : Externals Y) (layout : OfflineProjectLayout)
          (cid : String) (sel : String → Bool) (st : GenState),
          ∃ t, (walkChildStep ext layout cid sel st child).collectionCatalog =
            st.collectionCatalog ++ t := by
      intro child hsz Y ext layout cid sel st
      cases child with
      | file nm c => exact ⟨[], by simp [walkChildStep]⟩
      | dir childName childChildren =>
        simp only [walkChildStep]
        split
        · exact ⟨[], by simp⟩
        · split
          · exact ⟨[], by simp⟩
          · exact hP1 (.dir childName childChildren) hsz Y ext layout
              (nestedId cid childName) sel st
    have hP2 : ∀ (l : List FsNode), sizeOf l ≤ n →
        ∀ (Y : Type) (ext : Externals Y) (layout : OfflineProjectLayout)
          (cid : String) (sel : String → Bool) (st : GenState),
          ∃ t, (walkChildren ext layout cid sel st l).collectionCatalog =
            st.collectionCatalog ++ t := by
      intro l hsz Y ext layout cid sel st
      cases l with
      | nil => exact ⟨[], by simp [walkChildren]⟩
      | cons child rest =>
        simp only [walkChildren]
        have hsplit : sizeOf (child :: rest) = 1 + sizeOf child + sizeOf rest := by
          simp
        obtain ⟨t0, ht0⟩ := hP3 child (by omega) Y ext layout cid sel st
        obtain ⟨t1, ht1⟩ := (IH (sizeOf rest) (by omega)).2.1 rest (le_refl _)
          Y ext layout cid sel (walkChildStep ext layout cid sel st child)
        exact ⟨t0 ++ t1, by rw [ht1, ht0, List.append_assoc]⟩
    exact ⟨hP1, hP2, hP3⟩

theorem walkChildren_split {Y : Type} (ext : Externals Y)
    (layout : OfflineProjectLayout) (cid : String) (sel : String → Bool) :
    ∀ (l1 : List FsNode) (c : FsNode) (l2 : List FsNode) (st : GenState),
      walkChildren ext layout cid sel st (l1 ++ c :: l2) =
        walkChildren ext layout cid sel
          (walkChildStep ext layout cid sel
            (walkChildren ext layout cid sel st l1) c) l2 := by
  intro l1
  induction l1 with
  | nil =>
    intro c l2 st
    simp only [List.nil_append, walkChildren]
  | cons a rest IH =>
    intro c l2 st
    simp only [List.cons_append, walkChildren]
    exact IH c l2 _

theorem walk_included_catalog {Y : Type} (ext : Externals Y)
    (parentLayout : OfflineProjectLayout) (nodeName : String)
    (children : List FsNode) (cid : String) (sel : String → Bool) (st : GenState)
    (content : String) (m : CollectionMetaRecord) (ov : LayoutOverrides)
    (hfind : findFile children parentLayout.collection_metadata_file = some content)
    (hparse : ext.parseMetaDoc content = some (some m, ov))
    (hsel : sel cid = true) :
    ∃ E t, (walk_collection_tree ext parentLayout (.dir nodeName children)
        cid sel st).collectionCatalog =
      st.collectionCatalog ++ ⟨cid, m, E⟩ :: t := by
  simp only [walk_collection_tree, hfind, Option.some_bind, hparse]
  rw [if_pos hsel]
  obtain ⟨E, hE⟩ := processCollection_catalog ext (applyToLayout ov parentLayout)
    (.dir nodeName children) children cid m st
  obtain ⟨t, ht⟩ := (walk_catalog_mono_all (sizeOf children)).2.1 children
    (le_refl _) Y ext (applyToLayout ov parentLayout) cid sel
    (processCollection ext (applyToLayout ov parentLayout) (.dir nodeName children)
      children cid m st)
  refine ⟨E, t, ?_⟩
  rw [ht, hE]
  simp

/-- C9: when a directory's metadata parses but the selection predicate
rejects its collection id, the walk leaves the whole accumulated state
exactly as the child-recursion loop alone produces it from the unchanged
input state — nothing is added for the directory itself — and the loop
still descends into every non-hidden child directory holding a metadata
file under the nested id `{parent-id}/{child-name}`, so an included,
successfully-parsing nested sub-collection still contributes a catalog
record carrying its nested id and its own metadata. -/
theorem c9_theorem {Y : Type} (ext : Externals Y)
    (parentLayout : OfflineProjectLayout) (nodeName : String)
    (children : List FsNode) (collectionId : String) (sel : String → Bool)
    (st : GenState) (content : String) (m : CollectionMetaRecord)
    (ov : LayoutOverrides)
    (hfind : findFile children parentLayout.collection_metadata_file = some content)
    (hparse : ext.parseMetaDoc content = some (some m, ov))
    (hsel : sel collectionId = false) :
    walk_collection_tree ext parentLayout (.dir nodeName children)
        collectionId sel st =
      walkChildren ext (applyToLayout ov parentLayout) collectionId sel st
        children ∧
    (∀ (childName : String) (childChildren : List FsNode) (content2 : String)
      (m2 : CollectionMetaRecord) (ov2 : LayoutOverrides),
      FsNode.dir childName childChildren ∈ children →
      strStartsWith childName "." = false →
      hasEntryNamed childChildren
        (applyToLayout ov parentLayout).collection_metadata_file = true →
      findFile childChildren
        (applyToLayout ov parentLayout).collection_metadata_file = some content2 →
      ext.parseMetaDoc content2 = some (some m2, ov2) →
      sel (nestedId collectionId childName) = true →
      ∃ rec, rec ∈ (walk_collection_tree ext parentLayout (.dir nodeName children)
          collectionId sel st).collectionCatalog ∧
        rec.id = nestedId collectionId childName ∧ rec.meta = m2) := by
  have hmain : walk_collection_tree ext parentLayout (.dir nodeName children)
      collectionId sel st =
      walkChildren ext (applyToLayout ov parentLayout) collectionId sel st
        children := by
    simp only [walk_collection_tree, hfind, Option.some_bind, hparse]
    rw [if_neg (by rw [hsel]; intro h; cases h)]
  refine ⟨hmain, ?_⟩
  intro childName childChildren content2 m2 ov2 hmem hhidden hhas hfind2 hparse2 hsel2
  rw [hmain]
  obtain ⟨l1, l2, hsplit⟩ := List.append_of_mem hmem
  rw [hsplit, walkChildren_split]
  have hstep : walkChildStep ext (applyToLayout ov parentLayout) collectionId sel
      (walkChildren ext (applyToLayout ov parentLayout) collectionId sel st l1)
      (.dir childName childChildren) =
      walk_collection_tree ext (applyToLayout ov parentLayout)
        (.dir childName childChildren) (nestedId collectionId childName) sel
        (walkChildren ext (applyToLayout ov parentLayout) collectionId sel st l1) := by
    simp only [walkChildStep, hhidden, hhas]
    simp
  rw [hstep]
  obtain ⟨E, t, hcat⟩ := walk_included_catalog ext (applyToLayout ov parentLayout)
    childName childChildren (nestedId collectionId childName) sel
    (walkChildren ext (applyToLayout ov parentLayout) collectionId sel st l1)
    content2 m2 ov2 hfind2 hparse2 hsel2
  obtain ⟨t2, ht2⟩ := (walk_catalog_mono_all (sizeOf l2)).2.1 l2 (le_refl _)
    Y ext (applyToLayout ov parentLayout) collectionId sel
    (walk_collection_tree ext (applyToLayout ov parentLayout)
      (.dir childName childChildren) (nestedId collectionId childName) sel
      (walkChildren ext (applyToLayout ov parentLayout) collectionId sel st l1))
  refine ⟨⟨nestedId collectionId childName, m2, E⟩, ?_, rfl, rfl⟩
  rw [ht2, hcat]
  simp

/-- C9 witness: a parent directory `p` with valid metadata but excluded by
the selection, holding one child collection `c` with its own metadata that
the selection includes; the frame equation and the surviving nested record
follow from the theorem. -/
theorem c9_witness :
    findFile [FsNode.file "collection.json" "{}",
        FsNode.dir "c" [FsNode.file "collection.json" "{}"]]
      testLayout.collection_metadata_file = some "{}" ∧
    (Externals.parseMetaDoc (Y := Unit)
        ⟨⟨id, fun _ => true⟩, ⟨fun s => some (none, s), fun _ => none⟩,
          fun _ => [], fun c => if c = "{}" then
            some (some ⟨"T", none, none, none, none⟩,
              ⟨none, none, none, none, none, none⟩) else none,
          fun s => s⟩ "{}") =
      some (some ⟨"T", none, none, none, none⟩,
        ⟨none, none, none, none, none, none⟩) ∧
    (fun i => ! (i == "p")) "p" = false ∧
    (walk_collection_tree (Y := Unit)
        ⟨⟨id, fun _ => true⟩, ⟨fun s => some (none, s), fun _ => none⟩,
          fun _ => [], fun c => if c = "{}" then
            some (some ⟨"T", none, none, none, none⟩,
              ⟨none, none, none, none, none, none⟩) else none,
          fun s => s⟩ testLayout
        (.dir "p" [FsNode.file "collection.json" "{}",
          FsNode.dir "c" [FsNode.file "collection.json" "{}"]])
        "p" (fun i => ! (i == "p")) ⟨[], [], [], [], [], []⟩ =
      walkChildren (Y := Unit)
        ⟨⟨id, fun _ => true⟩, ⟨fun s => some (none, s), fun _ => none⟩,
          fun _ => [], fun c => if c = "{}" then
            some (some ⟨"T", none, none, none, none⟩,
              ⟨none, none, none, none, none, none⟩) else none,
          fun s => s⟩
        (applyToLayout ⟨none, none, none, none, none, none⟩ testLayout)
        "p" (fun i => ! (i == "p")) ⟨[], [], [], [], [], []⟩
        [FsNode.file "collection.json" "{}",
          FsNode.dir "c" [FsNode.file "collection.json" "{}"]]) ∧
    (∃ rec, rec ∈ (walk_collection_tree (Y := Unit)
        ⟨⟨id, fun _ => true⟩, ⟨fun s => some (none, s), fun _ => none⟩,
          fun _ => [], fun c => if c = "{}" then
            some (some ⟨"T", none, none, none, none⟩,
              ⟨none, none, none, none, none, none⟩) else none,
          fun s => s⟩ testLayout
        (.dir "p" [FsNode.file "collection.json" "{}",
          FsNode.dir "c" [FsNode.file "collection.json" "{}"]])
        "p" (fun i => ! (i == "p")) ⟨[], [], [], [], [], []⟩).collectionCatalog ∧
      rec.id = nestedId "p" "c" ∧ rec.meta = ⟨"T", none, none, none, none⟩) :=
  ⟨by decide, by decide, by decide,
    (c9_theorem _ testLayout "p"
      [FsNode.file "collection.json" "{}",
        FsNode.dir "c" [FsNode.file "collection.json" "{}"]]
      "p" (fun i => ! (i == "p")) ⟨[], [], [], [], [], []⟩ "{}"
      ⟨"T", none, none, none, none⟩ ⟨none, none, none, none, none, none⟩
      (by decide) (by decide) (by decide)).1,
    (c9_theorem _ testLayout "p"
      [FsNode.file "collection.json" "{}",
        FsNode.dir "c" [FsNode.file "collection.json" "{}"]]
      "p" (fun i => ! (i == "p")) ⟨[], [], [], [], [], []⟩ "{}"
      ⟨"T", none, none, none, none⟩ ⟨none, none, none, none, none, none⟩
      (by decide) (by decide) (by decide)).2
      "c" [FsNode.file "collection.json" "{}"] "{}"
      ⟨"T", none, none, none, none⟩ ⟨none, none, none, none, none, none⟩
      (by simp) (by decide) (by decide) (by decide) (by decide) (by decide)⟩

end OfflineBundler
